import Mathlib

/-!
# Verification of the YNAB CSV import pipeline

This file is a shallow embedding of the CSV import / account-aggregation
pipeline of the net-worth application (source file `src/unnamed/part_000`):
the CSV tokenizer `parseCSV`, the currency normalizer `parseCurrencyValue`,
the format detector `detectYNABFormat`, the two row aggregators
`parseNetWorthReport` and `parseRegister`, the pipeline entry point
`parseYNABCSV`, the classifier `suggestAccountType` and the fuzzy matcher
`stringSimilarity` — together with theorems checking the design document's
statements about them.

Modelling conventions:
* JS strings are modelled as `List Char` (`Str`).  All inputs of interest are
  within the Basic Multilingual Plane, where UTF-16 code units and code
  points coincide, so JS string comparison is code-point lexicographic.
* JS numbers are modelled as exact rationals (`Rat`); `parseFloat` is
  modelled as exact decimal/scientific-notation parsing returning
  `Option Rat`, `none` standing for `NaN`.
* A possibly-out-of-range indexed access `row[i]` (which yields `undefined`
  in JS) is modelled as `Option Str` via `List.get?`.
* Fallible parsers (the source throws `Error`) return `Except YNABError`.
-/

attribute [local semireducible] Rat.add Rat.sub Rat.mul Rat.inv Rat.ofScientific

set_option maxRecDepth 8000

/-- JS strings, modelled as lists of characters. -/
abbrev Str := List Char

/-- The ASCII part of the whitespace class used by JS `trim` and by the
regular-expression class `\s`. -/
def jsWhitespace (c : Char) : Bool :=
  c = ' ' || c = '\t' || c = '\n' || c = '\r' || c = '\x0b' || c = '\x0c'

/-- JS `String.prototype.trim`: strip leading and trailing whitespace. -/
def trimChars (s : Str) : Str :=
  ((s.dropWhile jsWhitespace).reverse.dropWhile jsWhitespace).reverse

/-- JS `String.prototype.toLowerCase`, on the ASCII letters (the only
characters the pipeline's own patterns and header names use). -/
def lowerChar (c : Char) : Char :=
  if 'A' ≤ c ∧ c ≤ 'Z' then Char.ofNat (c.toNat + 32) else c

/-- Lowercase a whole string. -/
def lowerStr (s : Str) : Str := s.map lowerChar

/-- Convenience coercion from Lean string literals to the model. -/
def strOf (s : String) : Str := s.toList

/-! ## The tokenizer `parseCSV` (source lines 35–81) -/

/-- End of a row: push the trimmed pending field onto the current line and
emit the line unless every field in it is empty (source lines 60–65 and
74–78: `currentLine.push(currentField.trim()); if (currentLine.some(f =>
f.length > 0)) lines.push(currentLine)`). -/
def endLine (field : Str) (line : List Str) (lines : List (List Str)) :
    List (List Str) :=
  let line2 := line ++ [trimChars field]
  if line2.any (fun f => f.length > 0) then lines ++ [line2] else lines

/-- The character loop of `parseCSV`, with the loop's mutable state
(`inQuotes`, `currentField`, `currentLine`, `lines`) made explicit.  The
two places where the source advances the index by an extra step
(`""` inside quotes, `\r\n` outside) consume two characters, so the list is
matched one or two characters at a time; the one-character case is the loop
body with the lookahead `text[i + 1]` being `undefined`. -/
def parseCSVAux (inQuotes : Bool) (field : Str) (line : List Str)
    (lines : List (List Str)) : List Char → List (List Str)
  | [] => endLine field line lines
  | [c] =>
    if inQuotes then
      if c = '"' then parseCSVAux false field line lines []
      else parseCSVAux true (field ++ [c]) line lines []
    else
      if c = '"' then parseCSVAux true field line lines []
      else if c = ',' ∨ c = ';' then
        parseCSVAux false [] (line ++ [trimChars field]) lines []
      else if c = '\n' then
        parseCSVAux false [] [] (endLine field line lines) []
      else if c = '\r' then parseCSVAux false field line lines []
      else parseCSVAux false (field ++ [c]) line lines []
  | c :: c2 :: rest =>
    if inQuotes then
      if c = '"' then
        if c2 = '"' then parseCSVAux true (field ++ ['"']) line lines rest
        else parseCSVAux false field line lines (c2 :: rest)
      else parseCSVAux true (field ++ [c]) line lines (c2 :: rest)
    else
      if c = '"' then parseCSVAux true field line lines (c2 :: rest)
      else if c = ',' ∨ c = ';' then
        parseCSVAux false [] (line ++ [trimChars field]) lines (c2 :: rest)
      else if c = '\n' then
        parseCSVAux false [] [] (endLine field line lines) (c2 :: rest)
      else if c = '\r' then
        if c2 = '\n' then parseCSVAux false [] [] (endLine field line lines) rest
        else parseCSVAux false field line lines (c2 :: rest)
      else parseCSVAux false (field ++ [c]) line lines (c2 :: rest)

/-- `parseCSV` (source lines 35–81): tokenize CSV text into rows of trimmed
fields, honoring double-quote quoting, `,`/`;` delimiters, `\n` / `\r\n` row
breaks, and dropping rows whose fields are all empty. -/
def parseCSV (text : Str) : List (List Str) := parseCSVAux false [] [] [] text

/-! ## The value normalizer `parseCurrencyValue` (source lines 84–117) -/

/-- Digits-to-number accumulation used by the `parseFloat` model. -/
def natOfDigits (ds : Str) : Nat :=
  ds.foldl (fun a c => 10 * a + (c.toNat - '0'.toNat)) 0

/-- Parse an optional exponent suffix at `l` (`e`/`E`, optional sign,
digits); returns the exponent (`0` when the suffix is absent or malformed,
as in JS where the longest valid numeric prefix alone is converted). -/
def parseExponent (l : Str) : Int :=
  match l with
  | 'e' :: t | 'E' :: t =>
    let (sgn, t2) : Int × Str :=
      match t with
      | '-' :: u => (-1, u)
      | '+' :: u => (1, u)
      | _ => (1, t)
    let ds := t2.takeWhile Char.isDigit
    if ds = [] then 0 else sgn * natOfDigits ds
  | _ => 0

/-- Model of the JS builtin `parseFloat`: the longest prefix of the form
`[+-]? digits [. digits] [eE [+-] digits]` is converted exactly (as a
rational); `none` models `NaN` (no digits at all).  `Infinity` and exotic
unicode whitespace are outside the model — `parseFloat` is only reached on
strings already stripped of all whitespace by `parseCurrencyValue`. -/
def jsParseFloat (l : Str) : Option Rat :=
  let (sgn, l1) : Int × Str :=
    match l with
    | '-' :: t => (-1, t)
    | '+' :: t => (1, t)
    | _ => (1, l)
  let intPart := l1.takeWhile Char.isDigit
  let l2 := l1.dropWhile Char.isDigit
  let (fracPart, l3) : Str × Str :=
    match l2 with
    | '.' :: t => (t.takeWhile Char.isDigit, t.dropWhile Char.isDigit)
    | _ => ([], l2)
  if intPart = [] ∧ fracPart = [] then none
  else
    let mant : Nat := natOfDigits intPart * 10 ^ fracPart.length + natOfDigits fracPart
    let e : Int := parseExponent l3
    some (if 0 ≤ e then mkRat (sgn * mant * 10 ^ e.toNat) (10 ^ fracPart.length)
          else mkRat (sgn * mant) (10 ^ fracPart.length * 10 ^ (-e).toNat))

/-- The final conversion step of `parseCurrencyValue`
(`isNaN(num) ? 0 : num`, source line 116): `parseFloat` with `NaN ↦ 0`. -/
def jsFloatOrZero (l : Str) : Rat := (jsParseFloat l).getD 0

/-- The characters removed by `value.replace(/[€$£₱\s]/g, '')`
(source line 88): the four currency symbols and all whitespace. -/
def strippedChar (c : Char) : Bool :=
  c = '€' || c = '$' || c = '£' || c = '₱' || jsWhitespace c

/-- The symbol/whitespace stripping step of `parseCurrencyValue`. -/
def cleanCurrency (value : Str) : Str := value.filter (fun c => ¬ strippedChar c)

/-- JS `String.prototype.lastIndexOf` for a single character: the index of
the last occurrence, `-1` when absent. -/
def lastIndexOf (l : Str) (c : Char) : Int :=
  (l.length : Int) - 1 - (l.reverse.indexOf c : Int)

/-- JS `String.prototype.replace` with a plain (non-global) string pattern:
replace only the first occurrence. -/
def replaceFirst (l : Str) (a b : Char) : Str :=
  match l with
  | [] => []
  | c :: t => if c = a then b :: t else c :: replaceFirst t a b

/-- The separator-disambiguation step of `parseCurrencyValue`
(source lines 90–113), applied to the already-cleaned string:
* both `,` and `.` present: the later separator is the decimal one; if it is
  the comma, all dots are stripped and the *first* comma becomes a dot, else
  all commas are stripped;
* only `,` present: if the part after the last comma has exactly two
  characters the *first* comma becomes a dot, else all commas are stripped;
* otherwise the string is left unchanged. -/
def normalizeSeparators (cleaned : Str) : Str :=
  if cleaned.contains ',' ∧ cleaned.contains '.' then
    if lastIndexOf cleaned ',' > lastIndexOf cleaned '.' then
      replaceFirst (cleaned.filter (fun c => ¬ c = '.')) ',' '.'
    else cleaned.filter (fun c => ¬ c = ',')
  else if cleaned.contains ',' then
    if ((cleaned.splitOn ',').getLastD []).length = 2 then
      replaceFirst cleaned ',' '.'
    else cleaned.filter (fun c => ¬ c = ',')
  else cleaned

/-- `parseCurrencyValue` (source lines 84–117): strip currency symbols and
whitespace, disambiguate thousands/decimal separators, convert with
`parseFloat`, and return `0` for empty/blank input or a failed conversion. -/
def parseCurrencyValue (value : Str) : Rat :=
  if value = [] ∨ trimChars value = [] then 0
  else jsFloatOrZero (normalizeSeparators (cleanCurrency value))

/-- `parseCurrencyValue` applied to a possibly-missing cell: a JS
`undefined` argument is falsy, so it takes the `return 0` branch. -/
def parseCurrencyValueCell (cell : Option Str) : Rat :=
  match cell with
  | none => 0
  | some s => parseCurrencyValue s

/-! ## The classifier `suggestAccountType` (source lines 120–164) -/

/-- `p` occurs as a contiguous substring of `l` (a literal alternative of a
JS regex `.test`). -/
def containsSub (l p : Str) : Bool :=
  (List.range (l.length + 1)).any (fun i => p.isPrefixOf (l.drop i))

/-- `l` contains `p1` followed by arbitrary whitespace followed by `p2`
(a regex alternative of the form `p1\s*p2`). -/
def containsGap (l p1 p2 : Str) : Bool :=
  (List.range (l.length + 1)).any (fun i =>
    let t := l.drop i
    p1.isPrefixOf t &&
      (let u := (t.drop p1.length)
       (List.range (u.length + 1)).any (fun n =>
         (u.take n).all jsWhitespace && p2.isPrefixOf (u.drop n))))

/-- The test `/credit|visa|mastercard|amex|card|loan|mortgage|debt|owe/`
(source line 128). -/
def liabilityPattern (l : Str) : Bool :=
  containsSub l (strOf "credit") || containsSub l (strOf "visa") ||
  containsSub l (strOf "mastercard") || containsSub l (strOf "amex") ||
  containsSub l (strOf "card") || containsSub l (strOf "loan") ||
  containsSub l (strOf "mortgage") || containsSub l (strOf "debt") ||
  containsSub l (strOf "owe")

/-- The test `/mortgage|home\s*loan|car\s*loan|student\s*loan|auto\s*loan/`
(source line 130). -/
def longTermLiabilityPattern (l : Str) : Bool :=
  containsSub l (strOf "mortgage") || containsGap l (strOf "home") (strOf "loan") ||
  containsGap l (strOf "car") (strOf "loan") ||
  containsGap l (strOf "student") (strOf "loan") ||
  containsGap l (strOf "auto") (strOf "loan")

/-- The test `/401k|401\(k\)|ira|roth|pension|retirement|super|sss|pag-?ibig/`
(source line 138). -/
def retirementPattern (l : Str) : Bool :=
  containsSub l (strOf "401k") || containsSub l (strOf "401(k)") ||
  containsSub l (strOf "ira") || containsSub l (strOf "roth") ||
  containsSub l (strOf "pension") || containsSub l (strOf "retirement") ||
  containsSub l (strOf "super") || containsSub l (strOf "sss") ||
  containsSub l (strOf "pagibig") || containsSub l (strOf "pag-ibig")

/-- The test `/invest|brokerage|stock|etf|fund|portfolio|trading/`
(source line 143). -/
def investmentPattern (l : Str) : Bool :=
  containsSub l (strOf "invest") || containsSub l (strOf "brokerage") ||
  containsSub l (strOf "stock") || containsSub l (strOf "etf") ||
  containsSub l (strOf "fund") || containsSub l (strOf "portfolio") ||
  containsSub l (strOf "trading")

/-- The test `/property|real\s*estate|house|home|condo|apartment|land/`
(source line 148). -/
def realEstatePattern (l : Str) : Bool :=
  containsSub l (strOf "property") || containsGap l (strOf "real") (strOf "estate") ||
  containsSub l (strOf "house") || containsSub l (strOf "home") ||
  containsSub l (strOf "condo") || containsSub l (strOf "apartment") ||
  containsSub l (strOf "land")

/-- The test `/check|saving|cash|wallet|emergency|petty|current\s*account/`
(source line 153). -/
def liquidPattern (l : Str) : Bool :=
  containsSub l (strOf "check") || containsSub l (strOf "saving") ||
  containsSub l (strOf "cash") || containsSub l (strOf "wallet") ||
  containsSub l (strOf "emergency") || containsSub l (strOf "petty") ||
  containsGap l (strOf "current") (strOf "account")

/-- The balance-sheet categories used by the app (`AccountCategory`). -/
inductive AccountCategory where
  | currentAsset
  | nonCurrentAsset
  | currentLiability
  | nonCurrentLiability
deriving DecidableEq, Repr

/-- The liquidity tiers used by the app (`AccessType`). -/
inductive AccessType where
  | liquid
  | illiquid
  | retirement
deriving DecidableEq, Repr

/-- The `ynabType` hint.  The source declares it as `'Asset' | 'Liability'`,
but the value stored at source line 203 is an unvalidated cast of the raw
cell text, so the model carries the raw string (`none` = `undefined`). -/
abbrev YNABTypeHint := Option Str

/-- `suggestAccountType` (source lines 120–164): ordered, first-match-wins
pattern rules over the lowercased name, with the `ynabType` hint short-
circuiting the liability rule and breaking the final fallback tie. -/
def suggestAccountType (name : Str) (ynabType : YNABTypeHint := none) :
    AccountCategory × AccessType :=
  let lower := lowerStr name
  if ynabType = some (strOf "Liability") ∨ liabilityPattern lower then
    if longTermLiabilityPattern lower then
      (.nonCurrentLiability, .illiquid)
    else (.currentLiability, .liquid)
  else if retirementPattern lower then (.nonCurrentAsset, .retirement)
  else if investmentPattern lower then (.nonCurrentAsset, .liquid)
  else if realEstatePattern lower then (.nonCurrentAsset, .illiquid)
  else if liquidPattern lower then (.currentAsset, .liquid)
  else if ynabType = some (strOf "Asset") then (.currentAsset, .liquid)
  else (.currentAsset, .liquid)

/-! ## C3: the comma-only disambiguation rule -/

/-- The substring after the last comma (the trigger examined by the
comma-only rule, `parts[parts.length - 1]` in the source). -/
def afterLastComma (l : Str) : Str := (l.splitOn ',').getLastD []

/-- Replace the last occurrence of `a` by `b`. -/
def replaceLast (l : Str) (a b : Char) : Str :=
  (replaceFirst l.reverse a b).reverse

/-- Modelled from the claim's words, not the source: "the comma is treated
as a decimal point" — the comma whose trailing substring was examined (the
last one) becomes the decimal point and the string is then converted. -/
def specCommaAsDecimal (cleaned : Str) : Rat :=
  jsFloatOrZero (replaceLast cleaned ',' '.')

/-! ## Data model and format detection (source lines 3–32) -/

/-- `YNABParsedAccount` (source lines 3–9).  `ynabType` carries the raw
cell text actually stored at run time (the source's
`'Asset' | 'Liability'` annotation is only an unchecked cast). -/
structure YNABParsedAccount where
  name : Str
  balance : Rat
  ynabType : Option Str
  suggestedCategory : AccountCategory
  suggestedAccessType : AccessType
deriving DecidableEq, Repr

/-- The two supported document shapes. -/
inductive YNABFormat where
  | register
  | networth
deriving DecidableEq, Repr

/-- The errors thrown by the pipeline (source lines 177, 230, 265, 271,
279), one constructor per distinct `throw new Error(...)` message. -/
inductive YNABError where
  | emptyDocument
  | unrecognizedFormat
  | missingColumnsNetworth
  | missingColumnsRegister
  | noAccountsFound
deriving DecidableEq, Repr

/-- `YNABParseResult` (source lines 11–15).  The `parseDate` field is the
wall-clock time of the call (`new Date()`), which is not a function of the
input text; it is outside the pure model. -/
structure YNABParseResult where
  format : YNABFormat
  accounts : List YNABParsedAccount
deriving DecidableEq, Repr

/-- A tokenized row. -/
abbrev Row := List Str

/-- `detectYNABFormat` (source lines 18–32): classify the header row by
membership of lowercased, trimmed header names. -/
def detectYNABFormat (headers : List Str) : Option YNABFormat :=
  let hs := headers.map (fun h => trimChars (lowerStr h))
  if hs.contains (strOf "month") && hs.contains (strOf "account type") then
    some .networth
  else if hs.contains (strOf "inflow") && hs.contains (strOf "outflow") &&
      hs.contains (strOf "account") then
    some .register
  else none

/-! ## Aggregators (source lines 167–258) -/

/-- JS `Array.prototype.indexOf` / `findIndex` on the header list: index of
the first hit, `none` for `-1`. -/
def findIdxOpt (p : Str → Bool) : List Str → Option Nat
  | [] => none
  | a :: t => if p a then some 0 else (findIdxOpt p t).map (· + 1)

/-- JS string lexicographic `>` on code points (all inputs of interest are
within the BMP, where this agrees with JS's UTF-16 code-unit order). -/
def strLt : Str → Str → Bool
  | _, [] => false
  | [], _ :: _ => true
  | a :: as, b :: bs => if a < b then true else if b < a then false else strLt as bs

/-- `a > b` on JS strings. -/
def strGt (a b : Str) : Bool := strLt b a

/-- JS `Map.prototype.set` on a map represented as its insertion-ordered
entry list: overwrite in place if the key is present, append otherwise. -/
def upsert {V : Type} : List (Str × V) → Str → V → List (Str × V)
  | [], k, v => [(k, v)]
  | (k', v') :: rest, k, v =>
    if k' = k then (k, v) :: rest else (k', v') :: upsert rest k v

/-- JS `Map.prototype.get`: the value stored at `k`, `none` for absent. -/
def lookupA {V : Type} : List (Str × V) → Str → Option V
  | [], _ => none
  | (k', v) :: rest, k => if k' = k then some v else lookupA rest k

/-- The loop body state of `parseNetWorthReport`: per-account
`(balance, ynabType-cell)`. -/
abbrev NetWorthEntry := Rat × Option Str

/-- The normalized header names (`rows[0].map(h => h.toLowerCase().trim())`,
source lines 170 and 224). -/
def headerCols (header : Row) : List Str :=
  header.map (fun h => trimChars (lowerStr h))

/-- `headers.indexOf('account')`. -/
def accountIdxOf (header : Row) : Option Nat :=
  findIdxOpt (fun h => h == strOf "account") (headerCols header)

/-- `headers.findIndex(h => h === 'balance' || h.includes('balance'))`. -/
def balanceIdxOf (header : Row) : Option Nat :=
  findIdxOpt (fun h => h == strOf "balance" || containsSub h (strOf "balance"))
    (headerCols header)

/-- `headers.indexOf('month')`. -/
def monthIdxOf (header : Row) : Option Nat :=
  findIdxOpt (fun h => h == strOf "month") (headerCols header)

/-- `headers.indexOf('account type')`. -/
def typeIdxOf (header : Row) : Option Nat :=
  findIdxOpt (fun h => h == strOf "account type") (headerCols header)

/-- `headers.indexOf('inflow')`. -/
def inflowIdxOf (header : Row) : Option Nat :=
  findIdxOpt (fun h => h == strOf "inflow") (headerCols header)

/-- `headers.indexOf('outflow')`. -/
def outflowIdxOf (header : Row) : Option Nat :=
  findIdxOpt (fun h => h == strOf "outflow") (headerCols header)

/-- One step of the first loop of `parseNetWorthReport` (source lines
185–190): `if (month && month > mostRecentMonth) mostRecentMonth = month`,
with `rows[i][monthIdx]` being `undefined` when the column is absent or
the row too short, which leaves the running value unchanged. -/
def monthMaxStep (monthIdx : Option Nat) (best : Str) (r : Row) : Str :=
  match monthIdx.bind (fun mi => r[mi]?) with
  | some m => if m ≠ [] ∧ strGt m best then m else best
  | none => best

/-- The first loop of `parseNetWorthReport` (source lines 184–190): the
running maximum of the truthy month cells under JS string `>`. -/
def mostRecentMonth (monthIdx : Option Nat) (data : List Row) : Str :=
  data.foldl (monthMaxStep monthIdx) []

/-- `const month = monthIdx >= 0 ? row[monthIdx] : mostRecentMonth`
(source line 195). -/
def nwMonthOf (monthIdx : Option Nat) (mostRecent : Str) (r : Row) : Option Str :=
  match monthIdx with
  | some mi => r[mi]?
  | none => some mostRecent

/-- The per-account value recorded for a selected row:
`{ balance: parseCurrencyValue(row[balanceIdx]), type: row[typeIdx] }`
(source lines 202–205). -/
def nwValueOf (balanceIdx : Nat) (typeIdx : Option Nat) (r : Row) : NetWorthEntry :=
  (parseCurrencyValueCell r[balanceIdx]?, typeIdx.bind (fun ti => r[ti]?))

/-- The body of the second loop of `parseNetWorthReport` (source lines
193–206): skip rows of another month and rows with a missing/blank account
cell, otherwise overwrite the account's entry. -/
def nwStep (accountIdx balanceIdx : Nat) (monthIdx typeIdx : Option Nat)
    (mostRecent : Str) (acc : List (Str × NetWorthEntry)) (r : Row) :
    List (Str × NetWorthEntry) :=
  if nwMonthOf monthIdx mostRecent r ≠ some mostRecent then acc
  else
    match r[accountIdx]? with
    | none => acc
    | some name =>
      if trimChars name = [] then acc
      else upsert acc name (nwValueOf balanceIdx typeIdx r)

/-- Build the output account from a map entry (source lines 208–217). -/
def mkNetWorthAccount (e : Str × NetWorthEntry) : YNABParsedAccount :=
  let s := suggestAccountType e.1 e.2.2
  { name := e.1, balance := e.2.1, ynabType := e.2.2,
    suggestedCategory := s.1, suggestedAccessType := s.2 }

/-- The two loops of `parseNetWorthReport` (source lines 181–217) after the
header columns have been resolved: find the most recent month, then collect
the per-account `(balance, type)` of the rows of that month, the last row
for an account name overwriting earlier ones. -/
def netWorthCore (data : List Row) (accountIdx balanceIdx : Nat)
    (monthIdx typeIdx : Option Nat) : List YNABParsedAccount :=
  (data.foldl
    (nwStep accountIdx balanceIdx monthIdx typeIdx (mostRecentMonth monthIdx data))
    []).map mkNetWorthAccount

/-- `parseNetWorthReport` (source lines 167–218): fewer than two rows yield
an empty result; a missing Account or Balance column is an error; otherwise
aggregate with `netWorthCore`. -/
def parseNetWorthReport (rows : List Row) :
    Except YNABError (List YNABParsedAccount) :=
  match rows with
  | [] => .ok []
  | [_] => .ok []
  | header :: data =>
    match accountIdxOf header, balanceIdxOf header with
    | some accountIdx, some balanceIdx =>
      .ok (netWorthCore data accountIdx balanceIdx
        (monthIdxOf header) (typeIdxOf header))
    | _, _ => .error .missingColumnsNetworth

/-- `inflow − outflow` of one register row (source lines 241–243). -/
def regNet (inflowIdx outflowIdx : Nat) (r : Row) : Rat :=
  parseCurrencyValueCell r[inflowIdx]? - parseCurrencyValueCell r[outflowIdx]?

/-- The body of the transaction loop of `parseRegister` (source lines
236–247): skip rows with a missing/blank account cell, otherwise add the
row's net amount to the account's running balance. -/
def regStep (accountIdx inflowIdx outflowIdx : Nat) (acc : List (Str × Rat))
    (r : Row) : List (Str × Rat) :=
  match r[accountIdx]? with
  | none => acc
  | some name =>
    if trimChars name = [] then acc
    else upsert acc name ((lookupA acc name).getD 0 + regNet inflowIdx outflowIdx r)

/-- Build the output account from a balance entry (source lines 249–257). -/
def mkRegisterAccount (e : Str × Rat) : YNABParsedAccount :=
  let s := suggestAccountType e.1 none
  { name := e.1, balance := e.2, ynabType := none,
    suggestedCategory := s.1, suggestedAccessType := s.2 }

/-- The transaction loop of `parseRegister` (source lines 234–258) after
the header columns have been resolved: accumulate `inflow − outflow` per
account name, then classify each account. -/
def registerCore (data : List Row) (accountIdx inflowIdx outflowIdx : Nat) :
    List YNABParsedAccount :=
  (data.foldl (regStep accountIdx inflowIdx outflowIdx) []).map mkRegisterAccount

/-- `parseRegister` (source lines 221–258): fewer than two rows yield an
empty result; a missing Account, Inflow or Outflow column is an error;
otherwise aggregate with `registerCore`. -/
def parseRegister (rows : List Row) : Except YNABError (List YNABParsedAccount) :=
  match rows with
  | [] => .ok []
  | [_] => .ok []
  | header :: data =>
    match accountIdxOf header, inflowIdxOf header, outflowIdxOf header with
    | some accountIdx, some inflowIdx, some outflowIdx =>
      .ok (registerCore data accountIdx inflowIdx outflowIdx)
    | _, _, _ => .error .missingColumnsRegister

instance {ε α : Type} [DecidableEq ε] [DecidableEq α] : DecidableEq (Except ε α) :=
  fun a b =>
    match a, b with
    | .error e, .error f => decidable_of_iff (e = f) (by simp)
    | .error _, .ok _ => isFalse (by simp)
    | .ok _, .error _ => isFalse (by simp)
    | .ok x, .ok y => decidable_of_iff (x = y) (by simp)

/-- `parseYNABCSV` (source lines 261–287): tokenize, detect the format,
dispatch to the matching aggregator, and fail on an empty document, an
unrecognized header, or an empty aggregation result. -/
def parseYNABCSV (text : Str) : Except YNABError YNABParseResult :=
  match parseCSV text with
  | [] => .error .emptyDocument
  | r0 :: rest =>
    match detectYNABFormat r0 with
    | none => .error .unrecognizedFormat
    | some fmt =>
      match (match fmt with
        | .networth => parseNetWorthReport (r0 :: rest)
        | .register => parseRegister (r0 :: rest)) with
      | .error e => .error e
      | .ok accounts =>
        if accounts = [] then .error .noAccountsFound
        else .ok { format := fmt, accounts := accounts }

/-! ## The similarity scorer `stringSimilarity` (source lines 290–331) -/

/-- The Levenshtein dynamic-programming matrix of `stringSimilarity`
(source lines 304–326): `levMat b a i j` is the value of `matrix[i][j]`,
the cell for the length-`i` prefix of `b` and the length-`j` prefix of `a`.
Each cell is defined by the recurrence the loop fills it with: first
row/column are the indices, and an inner cell reads its three
already-filled neighbors. -/
def levMat (b a : Str) : Nat → Nat → Nat
  | 0, j => j
  | i + 1, 0 => i + 1
  | i + 1, j + 1 =>
    if b.getD i ' ' = a.getD j ' ' then levMat b a i j
    else
      min (levMat b a i j + 1)
        (min (levMat b a (i + 1) j + 1) (levMat b a i (j + 1) + 1))
termination_by i j => i + j

/-- JS `String.prototype.includes`: contiguous-substring test. -/
def includesSub (l p : Str) : Bool := containsSub l p

/-- `stringSimilarity` (source lines 290–331): 1 for equal normalized
strings, 0 if either is empty, a containment bonus of
`0.7 + 0.3 · (shorter/longer)`, else `1 − distance / max-length`. -/
def stringSimilarity (a b : Str) : Rat :=
  let aLower := trimChars (lowerStr a)
  let bLower := trimChars (lowerStr b)
  if aLower = bLower then 1
  else if aLower.length = 0 ∨ bLower.length = 0 then 0
  else if includesSub aLower bLower ∨ includesSub bLower aLower then
    0.7 + 0.3 * mkRat (min aLower.length bLower.length) (max aLower.length bLower.length)
  else
    1 - mkRat (levMat bLower aLower bLower.length aLower.length)
      (max aLower.length bLower.length)

/-! ## C4: quoting round-trip through the tokenizer -/

/-- Quote-escape a field body: internal quote characters are doubled. -/
def encodeBody (f : Str) : Str :=
  f.flatMap (fun c => if c = '"' then ['"', '"'] else [c])

/-- Wrap field content in double quotes, doubling internal quotes. -/
def encodeField (f : Str) : Str := '"' :: encodeBody f ++ ['"']

/-! ## C8: row-break handling of the tokenizer -/

/-- A character with no special role for the unquoted tokenizer loop:
not a quote, delimiter, line feed or carriage return, and not whitespace
(so trimming cannot touch it either). -/
def plainChar (c : Char) : Bool :=
  !(c = '"' || c = ',' || c = ';' || jsWhitespace c)

/-! ## C2: register aggregation -/

/-- Modelled from the claim's words: the sum, over all data rows bearing
account name `n`, of that row's `inflow − outflow`. -/
def regSum (accountIdx inflowIdx outflowIdx : Nat) (n : Str)
    (data : List Row) : Rat :=
  ((data.filter (fun r => decide (r[accountIdx]? = some n))).map
    (regNet inflowIdx outflowIdx)).sum

/-- JS `accounts.find(...)`-style lookup of an output account by name. -/
def findAccount (accts : List YNABParsedAccount) (n : Str) :
    Option YNABParsedAccount :=
  accts.find? (fun a => a.name == n)

/-! ## C1: net-worth aggregation -/

/-- Modelled from the claim's words: the lexicographically maximal month
value among the month cells of the data rows (the empty string when no row
has one; the empty string is lexicographically least, so it never
dominates a real month value). -/
def specMaxMonth (mi : Nat) (data : List Row) : Str :=
  (data.filterMap (fun r => r[mi]?)).foldl (fun b m => if strLt b m then m else b) []

/-- Modelled from the claim's words: with a month column, exactly the data
rows whose month cell equals the maximal month are selected; with none,
all data rows are. -/
def specSelected (monthIdx : Option Nat) (data : List Row) : List Row :=
  match monthIdx with
  | some mi => data.filter (fun r => decide (r[mi]? = some (specMaxMonth mi data)))
  | none => data

/-- Does row `r` survive both the month filter and the account-name
match for name `n`? -/
def nwHits (accountIdx : Nat) (monthIdx : Option Nat) (mostRecent n : Str)
    (r : Row) : Bool :=
  decide (nwMonthOf monthIdx mostRecent r = some mostRecent) &&
    decide (r[accountIdx]? = some n)

/-! ## C7: the pipeline's error policy -/

/-- The detected format's required columns, per the claim. -/
def requiredColsMissing (fmt : YNABFormat) (header : Row) : Bool :=
  match fmt with
  | .networth => (accountIdxOf header).isNone || (balanceIdxOf header).isNone
  | .register =>
    (accountIdxOf header).isNone || (inflowIdxOf header).isNone ||
      (outflowIdxOf header).isNone

/-- The per-format missing-columns error ("distinct message per format"). -/
def missingColsError (fmt : YNABFormat) : YNABError :=
  match fmt with
  | .networth => .missingColumnsNetworth
  | .register => .missingColumnsRegister

/-- The aggregation result, with any (here unreachable) error read as the
empty account list. -/
def aggregateOk (fmt : YNABFormat) (rows : List Row) : List YNABParsedAccount :=
  match (match fmt with
    | .networth => parseNetWorthReport rows
    | .register => parseRegister rows) with
  | .ok l => l
  | .error _ => []

/-- Modelled from the claim's words: the pipeline fails iff one of four
conditions holds, checked in this order — zero tokenized rows
(`EmptyDocument`); header matching neither format (`UnrecognizedFormat`);
at least one data row present but the detected format's required columns
absent (`MissingColumns`, distinct per format); aggregation yielding zero
accounts (`NoAccountsFound`) — and otherwise succeeds with the non-empty
aggregation result. -/
def specOutcome (text : Str) : Except YNABError YNABParseResult :=
  match parseCSV text with
  | [] => .error .emptyDocument
  | r0 :: rest =>
    match detectYNABFormat r0 with
    | none => .error .unrecognizedFormat
    | some fmt =>
      if 1 ≤ rest.length ∧ requiredColsMissing fmt r0 = true then
        .error (missingColsError fmt)
      else
        let accts := aggregateOk fmt (r0 :: rest)
        if accts = [] then .error .noAccountsFound
        else .ok { format := fmt, accounts := accts }

example : parseCSV (strOf "a,b\nc;d") = [[strOf "a", strOf "b"], [strOf "c", strOf "d"]] := by
  decide

example : parseCSV (strOf "\"a,b\",c") = [[strOf "a,b", strOf "c"]] := by decide

example : parseCSV (strOf " a \r\n\n b ") = [[strOf "a"], [strOf "b"]] := by decide

example : parseCSV (strOf "a\rb") = [[strOf "ab"]] := by decide

example : parseCSV (strOf "\"a\"\"b\"") = [[strOf "a\"b"]] := by decide

example : parseCurrencyValue (strOf "€1,234.56") = mkRat 123456 100 := by decide
example : parseCurrencyValue (strOf "1.234,56") = mkRat 123456 100 := by decide
example : parseCurrencyValue (strOf "1,23") = mkRat 123 100 := by decide
example : parseCurrencyValue (strOf "1,234") = 1234 := by decide
example : parseCurrencyValue (strOf "") = 0 := by decide
example : parseCurrencyValue (strOf "abc") = 0 := by decide
example : parseCurrencyValue (strOf "-€500") = -500 := by decide
example : parseCurrencyValue (strOf "1,2,34") = mkRat 12 10 := by decide

example : suggestAccountType (strOf "Visa Platinum Card") none =
    (.currentLiability, .liquid) := by decide
example : suggestAccountType (strOf "Home Mortgage") none =
    (.nonCurrentLiability, .illiquid) := by decide
example : suggestAccountType (strOf "401k Retirement") none =
    (.nonCurrentAsset, .retirement) := by decide
example : suggestAccountType (strOf "Xyz") none = (.currentAsset, .liquid) := by decide

lemma mem_dropWhile_of_neg {p : Char → Bool} {c : Char} (hc : p c = false) :
    ∀ {l : Str}, c ∈ l → c ∈ l.dropWhile p := by
  intro l h
  induction l with
  | nil => cases h
  | cons a t ih =>
    rw [List.dropWhile_cons]
    by_cases ha : p a = true
    · rw [if_pos ha]
      rcases List.mem_cons.mp h with h | h
      · subst h; rw [hc] at ha; cases ha
      · exact ih h
    · rw [if_neg ha]; exact h

lemma trimChars_ne_nil {c : Char} {l : Str} (hc : jsWhitespace c = false)
    (h : c ∈ l) : trimChars l ≠ [] := by
  intro hnil
  unfold trimChars at hnil
  rw [List.reverse_eq_nil_iff, List.dropWhile_eq_nil_iff] at hnil
  have h1 : c ∈ l.dropWhile jsWhitespace := mem_dropWhile_of_neg hc h
  have h2 : c ∈ (l.dropWhile jsWhitespace).reverse := List.mem_reverse.mpr h1
  have := hnil c h2
  rw [hc] at this
  cases this

lemma comma_mem_of_contains {value : Str}
    (h : (cleanCurrency value).contains ',' = true) : ',' ∈ value := by
  have h1 : ',' ∈ cleanCurrency value := by
    simpa using h
  exact (List.mem_filter.mp h1).1

/-- The pre-parse checks of `parseCurrencyValue` pass whenever the cleaned
form still contains a comma. -/
lemma parseCurrencyValue_not_blank {value : Str}
    (h : (cleanCurrency value).contains ',' = true) :
    ¬(value = [] ∨ trimChars value = []) := by
  have hmem := comma_mem_of_contains h
  rintro (h1 | h1)
  · subst h1; cases hmem
  · exact trimChars_ne_nil (by decide) hmem h1

lemma replaceFirst_append_of_not_mem {a : Char} {l : Str} (m : Str)
    (h : a ∉ l) (b : Char) :
    replaceFirst (l ++ m) a b = l ++ replaceFirst m a b := by
  induction l with
  | nil => rfl
  | cons c t ih =>
    have hca : ¬c = a := fun hc => h (hc ▸ List.mem_cons_self c t)
    simp only [List.cons_append, replaceFirst, if_neg hca, List.append_eq]
    rw [ih (fun hm => h (List.mem_cons_of_mem c hm))]

lemma replaceFirst_append_of_mem {a : Char} {l : Str} (m : Str)
    (h : a ∈ l) (b : Char) :
    replaceFirst (l ++ m) a b = replaceFirst l a b ++ m := by
  induction l with
  | nil => cases h
  | cons c t ih =>
    by_cases hca : c = a
    · simp only [List.cons_append, replaceFirst, if_pos hca, List.append_eq]
    · simp only [List.cons_append, replaceFirst, if_neg hca, List.append_eq]
      rcases List.mem_cons.mp h with h1 | h1
      · exact absurd h1.symm hca
      · rw [ih h1]

/-- With a single comma present, replacing the first comma and replacing
the last comma are the same operation. -/
lemma replaceFirst_eq_replaceLast_of_count_one {l : Str}
    (h : l.count ',' = 1) (b : Char) :
    replaceFirst l ',' b = replaceLast l ',' b := by
  induction l with
  | nil => rfl
  | cons c t ih =>
    unfold replaceLast
    by_cases hc : c = ','
    · subst hc
      have ht : (',' : Char) ∉ t := by
        have := h
        rw [List.count_cons_self] at this
        have h0 : t.count ',' = 0 := by omega
        exact (List.count_eq_zero.mp h0)
      have htr : (',' : Char) ∉ t.reverse := fun hm => ht (List.mem_reverse.mp hm)
      simp only [replaceFirst, if_pos rfl, List.reverse_cons]
      rw [replaceFirst_append_of_not_mem [','] htr b]
      simp [replaceFirst]
    · have ht : t.count ',' = 1 := by
        have h' := h
        rw [List.count_cons] at h'
        simpa [hc] using h'
      have htm : (',' : Char) ∈ t := by
        have : 0 < t.count ',' := by omega
        exact List.count_pos_iff.mp this
      have htr : (',' : Char) ∈ t.reverse := List.mem_reverse.mpr htm
      simp only [replaceFirst, if_neg hc, List.reverse_cons]
      rw [replaceFirst_append_of_mem [c] htr b]
      simp only [List.reverse_append, List.reverse_cons, List.reverse_nil,
        List.nil_append, List.cons_append, List.nil_append]
      rw [ih ht]
      rfl

/-- C3 counterexample: on "1,2,34" the cleaned form contains commas, no
dot, and the substring after the last comma has exactly two characters, yet
the code does not treat that comma as a decimal point: it replaces only the
first comma, parses "1.2,34", and returns 1.2, not the 1 obtained by
parsing with the examined comma as the decimal point. -/
theorem C3_counterexample :
    (cleanCurrency (strOf "1,2,34")).contains ',' = true ∧
    (cleanCurrency (strOf "1,2,34")).contains '.' = false ∧
    (afterLastComma (cleanCurrency (strOf "1,2,34"))).length = 2 ∧
    parseCurrencyValue (strOf "1,2,34") = mkRat 12 10 ∧
    specCommaAsDecimal (cleanCurrency (strOf "1,2,34")) = 1 ∧
    ¬parseCurrencyValue (strOf "1,2,34") =
      specCommaAsDecimal (cleanCurrency (strOf "1,2,34")) := by
  refine ⟨by decide, by decide, by decide, by decide, by decide, by decide⟩

/-- C3 (amended): for input whose cleaned form has at least one comma and
no dot, if the substring after the last comma has exactly two characters
then the *first* comma is replaced by a decimal point (so with several
commas numeric conversion stops before the second one), otherwise all
commas are stripped as thousands separators; when there is exactly one
comma this coincides with treating *the* comma as the decimal point, as the
claim states; in particular "1,23" ↦ 1.23 and "1,234" ↦ 1234. -/
theorem C3_comma_rule :
    (∀ value, (cleanCurrency value).contains ',' = true →
      (cleanCurrency value).contains '.' = false →
      parseCurrencyValue value =
        if (afterLastComma (cleanCurrency value)).length = 2
        then jsFloatOrZero (replaceFirst (cleanCurrency value) ',' '.')
        else jsFloatOrZero ((cleanCurrency value).filter (fun c => ¬ c = ','))) ∧
    (∀ value, (cleanCurrency value).count ',' = 1 →
      (cleanCurrency value).contains '.' = false →
      parseCurrencyValue value =
        if (afterLastComma (cleanCurrency value)).length = 2
        then specCommaAsDecimal (cleanCurrency value)
        else jsFloatOrZero ((cleanCurrency value).filter (fun c => ¬ c = ','))) ∧
    parseCurrencyValue (strOf "1,23") = mkRat 123 100 ∧
    parseCurrencyValue (strOf "1,234") = 1234 := by
  have main : ∀ value, (cleanCurrency value).contains ',' = true →
      (cleanCurrency value).contains '.' = false →
      parseCurrencyValue value =
        if (afterLastComma (cleanCurrency value)).length = 2
        then jsFloatOrZero (replaceFirst (cleanCurrency value) ',' '.')
        else jsFloatOrZero ((cleanCurrency value).filter (fun c => ¬ c = ',')) := by
    intro value h1 h2
    have hm1 : (',' : Char) ∈ cleanCurrency value := by simpa using h1
    have hm2 : ('.' : Char) ∉ cleanCurrency value := by simpa using h2
    unfold parseCurrencyValue
    rw [if_neg (parseCurrencyValue_not_blank h1)]
    unfold normalizeSeparators
    rw [if_neg (by simp [hm2]), if_pos (by simpa using hm1)]
    unfold afterLastComma
    rw [apply_ite jsFloatOrZero]
  refine ⟨main, ?_, by decide, by decide⟩
  intro value h1 h2
  have hc : (cleanCurrency value).contains ',' = true := by
    have : (',' : Char) ∈ cleanCurrency value :=
      List.count_pos_iff.mp (by omega)
    simpa using this
  rw [main value hc h2]
  unfold specCommaAsDecimal
  rw [replaceFirst_eq_replaceLast_of_count_one h1]

/-- Concrete instantiation of `C3_comma_rule`: the two-character branch on
"1,23". -/
theorem C3_comma_rule_witness :
    parseCurrencyValue (strOf "1,23") =
      jsFloatOrZero (replaceFirst (cleanCurrency (strOf "1,23")) ',' '.') := by
  have h := C3_comma_rule.1 (strOf "1,23") (by decide) (by decide)
  rw [if_pos (by decide)] at h
  exact h

/-! ## C6: the classifier is a total function of the lowercased name and
the hint, with fixed first-match-wins rules -/

/-- C6: `suggestAccountType` is a total, deterministic function of the
lowercased name and the optional type hint (names with the same lowercase
form classify identically), its rules are evaluated first-match-wins, and
in particular "Visa Platinum Card" ↦ (current_liability, liquid),
"Home Mortgage" ↦ (non_current_liability, illiquid), "401k Retirement" ↦
(non_current_asset, retirement), and a name matching none of the rules
with no hint falls through to (current_asset, liquid). -/
theorem C6_suggestAccountType :
    (∀ n₁ n₂ t, lowerStr n₁ = lowerStr n₂ →
      suggestAccountType n₁ t = suggestAccountType n₂ t) ∧
    suggestAccountType (strOf "Visa Platinum Card") none =
      (.currentLiability, .liquid) ∧
    suggestAccountType (strOf "Home Mortgage") none =
      (.nonCurrentLiability, .illiquid) ∧
    suggestAccountType (strOf "401k Retirement") none =
      (.nonCurrentAsset, .retirement) ∧
    (∀ n, liabilityPattern (lowerStr n) = false →
      retirementPattern (lowerStr n) = false →
      investmentPattern (lowerStr n) = false →
      realEstatePattern (lowerStr n) = false →
      liquidPattern (lowerStr n) = false →
      suggestAccountType n none = (.currentAsset, .liquid)) := by
  refine ⟨?_, by decide, by decide, by decide, ?_⟩
  · intro n₁ n₂ t h
    unfold suggestAccountType
    rw [h]
  · intro n h1 h2 h3 h4 h5
    simp [suggestAccountType, h1, h2, h3, h4, h5]

/-- Concrete instantiation of `C6_suggestAccountType`: two spellings of one
lowercased name classify identically, and an unmatched name defaults to
(current_asset, liquid). -/
theorem C6_suggestAccountType_witness :
    suggestAccountType (strOf "XYZ") none = suggestAccountType (strOf "xYz") none ∧
    suggestAccountType (strOf "Piggy") none = (.currentAsset, .liquid) :=
  ⟨C6_suggestAccountType.1 (strOf "XYZ") (strOf "xYz") none (by decide),
   C6_suggestAccountType.2.2.2.2 (strOf "Piggy") (by decide) (by decide)
     (by decide) (by decide) (by decide)⟩

example : detectYNABFormat [strOf "Month", strOf "Account", strOf "Account Type",
    strOf "Balance"] = some .networth := by decide
example : detectYNABFormat [strOf "Account", strOf "Inflow", strOf "Outflow"] =
    some .register := by decide
example : detectYNABFormat [strOf "Foo", strOf "Bar"] = none := by decide

example :
    parseYNABCSV (strOf "Account,Inflow,Outflow\nChecking,100,0\nChecking,0,40") =
    .ok { format := .register,
          accounts := [{ name := strOf "Checking", balance := 60, ynabType := none,
                         suggestedCategory := .currentAsset,
                         suggestedAccessType := .liquid }] } := by decide

example :
    parseYNABCSV
      (strOf "Month,Account,Account Type,Balance\n2024-01,Savings,Asset,50\n2024-02,Savings,Asset,75") =
    .ok { format := .networth,
          accounts := [{ name := strOf "Savings", balance := 75,
                         ynabType := some (strOf "Asset"),
                         suggestedCategory := .currentAsset,
                         suggestedAccessType := .liquid }] } := by decide

example : parseYNABCSV (strOf "") = .error .emptyDocument := by decide
example : parseYNABCSV (strOf "Foo,Bar\n1,2") = .error .unrecognizedFormat := by decide
example : parseYNABCSV (strOf "Month,Account Type\nx,y") =
    .error .missingColumnsNetworth := by decide
example : parseYNABCSV (strOf "Account,Inflow,Outflow\n ,1,2") =
    .error .noAccountsFound := by decide

example : stringSimilarity (strOf "Chase Checking") (strOf "chase checking") = 1 := by
  decide
example : stringSimilarity (strOf "") (strOf "x") = 0 := by decide
example : stringSimilarity (strOf "Chase") (strOf "Chase Checking") =
    0.7 + 0.3 * mkRat 5 14 := by decide
example : levMat (strOf "ba") (strOf "ab") 2 2 = 2 := by simp [levMat, strOf]

example : levMat (strOf "sitting") (strOf "kitten") 7 6 = 3 := by
  simp [levMat, strOf]

/-! ## C5: symmetry of the similarity scorer -/

/-- The Levenshtein matrix is symmetric in its two strings: the cell for
`(i, j)` of `(b, a)` is the cell for `(j, i)` of `(a, b)`. -/
lemma levMat_symm_aux (b a : Str) :
    ∀ n i j, i + j = n → levMat b a i j = levMat a b j i := by
  intro n
  induction n using Nat.strong_induction_on with
  | _ n ih =>
    intro i j hij
    match i, j with
    | 0, 0 => simp [levMat]
    | 0, j + 1 => simp [levMat]
    | i + 1, 0 => simp [levMat]
    | i + 1, j + 1 =>
      have h1 : levMat b a i j = levMat a b j i :=
        ih (i + j) (by omega) i j rfl
      have h2 : levMat b a (i + 1) j = levMat a b j (i + 1) :=
        ih (i + 1 + j) (by omega) (i + 1) j rfl
      have h3 : levMat b a i (j + 1) = levMat a b (j + 1) i :=
        ih (i + (j + 1)) (by omega) i (j + 1) rfl
      rw [levMat, levMat]
      by_cases hc : b.getD i ' ' = a.getD j ' '
      · rw [if_pos hc, if_pos hc.symm, h1]
      · rw [if_neg hc, if_neg (fun h => hc h.symm), h1, h2, h3]
        omega

/-- C5: for every pair of input strings,
`stringSimilarity a b = stringSimilarity b a`. -/
theorem C5_stringSimilarity_symm (a b : Str) :
    stringSimilarity a b = stringSimilarity b a := by
  unfold stringSimilarity
  dsimp only
  by_cases h1 : trimChars (lowerStr a) = trimChars (lowerStr b)
  · rw [if_pos h1, if_pos h1.symm]
  · have h1' : ¬trimChars (lowerStr b) = trimChars (lowerStr a) := fun h => h1 h.symm
    rw [if_neg h1, if_neg h1']
    by_cases h2 : (trimChars (lowerStr a)).length = 0 ∨ (trimChars (lowerStr b)).length = 0
    · rw [if_pos h2, if_pos h2.symm]
    · have h2' : ¬((trimChars (lowerStr b)).length = 0 ∨
          (trimChars (lowerStr a)).length = 0) := fun h => h2 h.symm
      rw [if_neg h2, if_neg h2']
      by_cases h3 : includesSub (trimChars (lowerStr a)) (trimChars (lowerStr b)) = true ∨
          includesSub (trimChars (lowerStr b)) (trimChars (lowerStr a)) = true
      · rw [if_pos h3, if_pos h3.symm, min_comm, max_comm]
      · have h3' : ¬(includesSub (trimChars (lowerStr b)) (trimChars (lowerStr a)) = true ∨
            includesSub (trimChars (lowerStr a)) (trimChars (lowerStr b)) = true) :=
          fun h => h3 h.symm
        rw [if_neg h3, if_neg h3',
          levMat_symm_aux (trimChars (lowerStr b)) (trimChars (lowerStr a)) _ _ _ rfl,
          max_comm]

/-- Scanning an escaped body followed by the closing quote, in quoting
mode, appends exactly the original body to the pending field and ends
quoting mode. -/
lemma parseCSVAux_quoted (f : Str) : ∀ field line lines,
    parseCSVAux true field line lines (encodeBody f ++ ['"']) =
    parseCSVAux false (field ++ f) line lines [] := by
  induction f with
  | nil => intro field line lines; simp [encodeBody, parseCSVAux]
  | cons c t ih =>
    intro field line lines
    by_cases hc : c = '"'
    · subst hc
      have hb : encodeBody ('"' :: t) ++ ['"'] =
          '"' :: '"' :: (encodeBody t ++ ['"']) := by
        simp [encodeBody]
      have step : parseCSVAux true field line lines
          ('"' :: '"' :: (encodeBody t ++ ['"'])) =
          parseCSVAux true (field ++ ['"']) line lines (encodeBody t ++ ['"']) := by
        simp [parseCSVAux]
      rw [hb, step, ih (field ++ ['"']) line lines]
      simp
    · have hb : encodeBody (c :: t) ++ ['"'] = c :: (encodeBody t ++ ['"']) := by
        simp [encodeBody, hc]
      cases he : encodeBody t ++ ['"'] with
      | nil => exact absurd he (by simp)
      | cons x r =>
        have step : parseCSVAux true field line lines (c :: x :: r) =
            parseCSVAux true (field ++ [c]) line lines (x :: r) := by
          simp [parseCSVAux, hc]
        rw [hb, he, step, ← he, ih (field ++ [c]) line lines]
        simp

/-- C4 counterexample: the field content " a," contains a comma, but
wrapping it in quotes and re-parsing yields the *trimmed* content "a,",
not the original — every extracted field is trimmed, so content with
leading or trailing whitespace does not round-trip. -/
theorem C4_counterexample :
    parseCSV (encodeField (strOf " a,")) = [[strOf "a,"]] ∧
    ¬parseCSV (encodeField (strOf " a,")) = [[strOf " a,"]] := by
  exact ⟨by decide, by decide⟩

/-- C4 (amended): for field content containing a comma, semicolon or line
break *and carrying no leading or trailing whitespace*, wrapping it in
double quotes (with internal quotes doubled) and re-parsing yields back
exactly a single row holding the original content as its only field. -/
theorem C4_quote_roundtrip (f : Str)
    (hdelim : f.contains ',' = true ∨ f.contains ';' = true ∨
      f.contains '\n' = true)
    (htrim : trimChars f = f) :
    parseCSV (encodeField f) = [[f]] := by
  have hne : f ≠ [] := by
    rcases hdelim with h | h | h <;>
      exact fun hnil => by subst hnil; simp at h
  unfold parseCSV encodeField
  cases he : encodeBody f ++ ['"'] with
  | nil => exact absurd he (by simp)
  | cons x r =>
    have step : parseCSVAux false [] [] [] ('"' :: x :: r) =
        parseCSVAux true [] [] [] (x :: r) := by
      simp [parseCSVAux]
    rw [List.cons_append, he, step, ← he, parseCSVAux_quoted f [] [] []]
    show endLine f [] [] = [[f]]
    unfold endLine
    rw [htrim]
    simp [List.length_pos, hne]

/-- Concrete instantiation of `C4_quote_roundtrip` at the field content
"a,b". -/
theorem C4_quote_roundtrip_witness :
    parseCSV (encodeField (strOf "a,b")) = [[strOf "a,b"]] :=
  C4_quote_roundtrip (strOf "a,b") (Or.inl (by decide)) (by decide)

lemma plainChar_spec {c : Char} (h : plainChar c = true) :
    ¬c = '"' ∧ ¬c = ',' ∧ ¬c = ';' ∧ ¬c = '\n' ∧ ¬c = '\r' ∧
      jsWhitespace c = false := by
  simp only [plainChar, Bool.not_eq_true', Bool.or_eq_false_iff,
    decide_eq_false_iff_not] at h
  refine ⟨h.1.1.1, h.1.1.2, h.1.2, ?_, ?_, h.2⟩
  · intro hc; subst hc; simp [jsWhitespace] at h
  · intro hc; subst hc; simp [jsWhitespace] at h

/-- An unquoted plain character is appended to the pending field. -/
lemma parseCSVAux_plain_step {c : Char} (h : plainChar c = true)
    (field : Str) (line : List Str) (lines : List (List Str)) (l : List Char) :
    parseCSVAux false field line lines (c :: l) =
    parseCSVAux false (field ++ [c]) line lines l := by
  obtain ⟨h1, h2, h3, h4, h5, _⟩ := plainChar_spec h
  cases l <;> simp [parseCSVAux, h1, h2, h3, h4, h5]

/-- An unquoted `\n` ends exactly one row. -/
lemma parseCSVAux_newline_step (field : Str) (line : List Str)
    (lines : List (List Str)) (l : List Char) :
    parseCSVAux false field line lines ('\n' :: l) =
    parseCSVAux false [] [] (endLine field line lines) l := by
  cases l <;> simp [parseCSVAux]

/-- An unquoted `\r\n` pair ends exactly one row. -/
lemma parseCSVAux_crlf_step (field : Str) (line : List Str)
    (lines : List (List Str)) (l : List Char) :
    parseCSVAux false field line lines ('\r' :: '\n' :: l) =
    parseCSVAux false [] [] (endLine field line lines) l := by
  simp [parseCSVAux]

/-- An unquoted bare `\r` not followed by `\n` is dropped: the whole loop
state (pending field included) is unchanged. -/
lemma parseCSVAux_cr_step (field : Str) (line : List Str)
    (lines : List (List Str)) (l : List Char) (hl : l.head? ≠ some '\n') :
    parseCSVAux false field line lines ('\r' :: l) =
    parseCSVAux false field line lines l := by
  cases l with
  | nil => simp [parseCSVAux]
  | cons x r =>
    have hx : ¬x = '\n' := by
      intro hc; exact hl (by rw [hc]; rfl)
    simp [parseCSVAux, hx]

/-- Scanning a run of unquoted plain characters appends it to the pending
field. -/
lemma parseCSVAux_plain_append {u : Str} (hu : ∀ c ∈ u, plainChar c = true) :
    ∀ field line lines rest,
      parseCSVAux false field line lines (u ++ rest) =
      parseCSVAux false (field ++ u) line lines rest := by
  induction u with
  | nil => intro field line lines rest; simp
  | cons c t ih =>
    intro field line lines rest
    rw [List.cons_append,
      parseCSVAux_plain_step (hu c (List.mem_cons_self c t)) field line lines,
      ih (fun d hd => hu d (List.mem_cons_of_mem c hd)) (field ++ [c]),
      List.append_assoc]
    rfl

lemma dropWhile_eq_self_of_all {p : Char → Bool} {l : Str}
    (h : ∀ c ∈ l, p c = false) : l.dropWhile p = l := by
  cases l with
  | nil => rfl
  | cons a t => rw [List.dropWhile_cons, if_neg (by simp [h a (List.mem_cons_self a t)])]

lemma trimChars_eq_self_of_plain {l : Str}
    (h : ∀ c ∈ l, jsWhitespace c = false) : trimChars l = l := by
  unfold trimChars
  rw [dropWhile_eq_self_of_all h,
    dropWhile_eq_self_of_all (fun c hc => h c (List.mem_reverse.mp hc)),
    List.reverse_reverse]

/-- Ending a row holding a single nonempty trim-fixed field emits it. -/
lemma endLine_single {f : Str} (hne : f ≠ []) (htrim : trimChars f = f)
    (lines : List (List Str)) : endLine f [] lines = lines ++ [[f]] := by
  unfold endLine
  rw [htrim]
  simp [List.length_pos, hne]

/-- C8 counterexample: on "a\rb" the bare carriage return is not kept as
whitespace content of the field — the field comes back as "ab" (the `\r`
is dropped outright), not as "a\rb" (which trimming would leave intact,
interior whitespace being preserved by `trim`). -/
theorem C8_counterexample :
    parseCSV (strOf "a\rb") = [[strOf "ab"]] ∧
    trimChars (strOf "a\rb") = strOf "a\rb" ∧
    ¬parseCSV (strOf "a\rb") = [[strOf "a\rb"]] := by
  exact ⟨by decide, by decide, by decide⟩

/-- C8 (amended): for any two nonempty runs `u`, `v` of plain characters,
a bare `\r` between them is dropped entirely (neither row break nor field
content: the result is the single field `u ++ v`), while `\n` and the pair
`\r\n` each end exactly one row (two rows `[u]`, `[v]` result). -/
theorem C8_row_breaks (u v : Str) (hu : ∀ c ∈ u, plainChar c = true)
    (hv : ∀ c ∈ v, plainChar c = true) (hun : u ≠ []) (hvn : v ≠ []) :
    parseCSV (u ++ '\r' :: v) = [[u ++ v]] ∧
    parseCSV (u ++ '\n' :: v) = [[u], [v]] ∧
    parseCSV (u ++ '\r' :: '\n' :: v) = [[u], [v]] := by
  have huv : ∀ c ∈ u ++ v, plainChar c = true := by
    intro c hc
    rcases List.mem_append.mp hc with h | h
    · exact hu c h
    · exact hv c h
  have hutrim : trimChars u = u :=
    trimChars_eq_self_of_plain (fun c hc => (plainChar_spec (hu c hc)).2.2.2.2.2)
  have hvtrim : trimChars v = v :=
    trimChars_eq_self_of_plain (fun c hc => (plainChar_spec (hv c hc)).2.2.2.2.2)
  have huvtrim : trimChars (u ++ v) = u ++ v :=
    trimChars_eq_self_of_plain (fun c hc => (plainChar_spec (huv c hc)).2.2.2.2.2)
  have hvhead : v.head? ≠ some '\n' := by
    cases v with
    | nil => simp
    | cons x r =>
      have := (plainChar_spec (hv x (List.mem_cons_self x r))).2.2.2.1
      simp [this]
  have tailv : ∀ lines, parseCSVAux false [] [] lines v = lines ++ [[v]] := by
    intro lines
    have h1 := parseCSVAux_plain_append hv [] [] lines []
    rw [List.append_nil, List.nil_append] at h1
    rw [h1]
    show endLine v [] lines = lines ++ [[v]]
    exact endLine_single hvn hvtrim lines
  refine ⟨?_, ?_, ?_⟩
  · show parseCSVAux false [] [] [] (u ++ '\r' :: v) = [[u ++ v]]
    rw [parseCSVAux_plain_append hu [] [] [] ('\r' :: v), List.nil_append,
      parseCSVAux_cr_step u [] [] v hvhead]
    have h1 := parseCSVAux_plain_append hv u [] [] []
    rw [List.append_nil] at h1
    rw [h1]
    show endLine (u ++ v) [] [] = [[u ++ v]]
    exact endLine_single (by simp [hun]) huvtrim []
  · show parseCSVAux false [] [] [] (u ++ '\n' :: v) = [[u], [v]]
    rw [parseCSVAux_plain_append hu [] [] [] ('\n' :: v), List.nil_append,
      parseCSVAux_newline_step u [] [] v, endLine_single hun hutrim [],
      List.nil_append, tailv [[u]]]
    rfl
  · show parseCSVAux false [] [] [] (u ++ '\r' :: '\n' :: v) = [[u], [v]]
    rw [parseCSVAux_plain_append hu [] [] [] ('\r' :: '\n' :: v), List.nil_append,
      parseCSVAux_crlf_step u [] [] v, endLine_single hun hutrim [],
      List.nil_append, tailv [[u]]]
    rfl

/-- Concrete instantiation of `C8_row_breaks` at `u = "a"`, `v = "b"`. -/
theorem C8_row_breaks_witness :
    parseCSV (strOf "a" ++ '\r' :: strOf "b") = [[strOf "a" ++ strOf "b"]] ∧
    parseCSV (strOf "a" ++ '\n' :: strOf "b") = [[strOf "a"], [strOf "b"]] ∧
    parseCSV (strOf "a" ++ '\r' :: '\n' :: strOf "b") =
      [[strOf "a"], [strOf "b"]] :=
  C8_row_breaks (strOf "a") (strOf "b") (by decide) (by decide)
    (by decide) (by decide)

/-! ## C9: the `sourceType` tag is stored unvalidated -/

/-- C9 (code bug): the interface `YNABParsedAccount` declares
`ynabType?: 'Asset' | 'Liability'`, but `parseNetWorthReport` stores the
raw "Account Type" cell through an unchecked cast
(`row[typeIdx] as 'Asset' | 'Liability'`, source line 203), so a document
whose type cell holds "Banana" produces a successful `ParseResult` whose
account carries `sourceType = "Banana"` — neither `Asset` nor
`Liability`, contradicting the declared type and the claim. -/
theorem C9_sourceType_unvalidated :
    parseYNABCSV
      (strOf "Month,Account,Account Type,Balance\n2024-01,Checking,Banana,100") =
      .ok { format := .networth,
            accounts := [{ name := strOf "Checking", balance := 100,
                           ynabType := some (strOf "Banana"),
                           suggestedCategory := .currentAsset,
                           suggestedAccessType := .liquid }] } ∧
    ¬some (strOf "Banana") = some (strOf "Asset") ∧
    ¬some (strOf "Banana") = some (strOf "Liability") := by
  exact ⟨by decide, by decide, by decide⟩

/-! ## Association-list lemmas for the aggregation folds -/

lemma lookupA_upsert_self {V : Type} (m : List (Str × V)) (k : Str) (v : V) :
    lookupA (upsert m k v) k = some v := by
  induction m with
  | nil => simp [upsert, lookupA]
  | cons e t ih =>
    obtain ⟨k', v'⟩ := e
    by_cases h : k' = k
    · simp [upsert, h, lookupA]
    · simp [upsert, h, lookupA, ih]

lemma lookupA_upsert_ne {V : Type} (m : List (Str × V)) (k : Str) (v : V)
    (n : Str) (h : ¬k = n) : lookupA (upsert m k v) n = lookupA m n := by
  induction m with
  | nil => simp [upsert, lookupA, h]
  | cons e t ih =>
    obtain ⟨k', v'⟩ := e
    by_cases h' : k' = k
    · subst h'
      simp [upsert, lookupA, h]
    · simp [upsert, h', lookupA, ih]

lemma keys_upsert {V : Type} (m : List (Str × V)) (k : Str) (v : V) :
    (upsert m k v).map Prod.fst =
      if k ∈ m.map Prod.fst then m.map Prod.fst else m.map Prod.fst ++ [k] := by
  induction m with
  | nil => simp [upsert]
  | cons e t ih =>
    obtain ⟨k', v'⟩ := e
    by_cases h : k' = k
    · subst h
      simp only [upsert, if_pos rfl, List.map_cons]
      rw [if_pos trivial, if_pos (List.mem_cons_self _ _)]
      rfl
    · have h' : ¬k = k' := fun hq => h hq.symm
      simp only [upsert, if_neg h, List.map_cons, ih, List.mem_cons]
      by_cases hm : k ∈ t.map Prod.fst
      · rw [if_pos hm, if_pos (Or.inr hm)]
      · rw [if_neg hm, if_neg (by rintro (hq | hq); exacts [h' hq, hm hq])]
        rfl

lemma nodup_keys_upsert {V : Type} (m : List (Str × V)) (k : Str) (v : V)
    (h : (m.map Prod.fst).Nodup) : ((upsert m k v).map Prod.fst).Nodup := by
  rw [keys_upsert]
  by_cases hm : k ∈ m.map Prod.fst
  · rw [if_pos hm]; exact h
  · rw [if_neg hm]
    refine List.Nodup.append h (List.nodup_singleton _) ?_
    intro x hx hxk
    have hxe : x = k := by simpa using hxk
    exact hm (hxe ▸ hx)

lemma lookupA_isSome_iff_mem {V : Type} (m : List (Str × V)) (n : Str) :
    (lookupA m n).isSome = true ↔ n ∈ m.map Prod.fst := by
  induction m with
  | nil => simp [lookupA]
  | cons e t ih =>
    obtain ⟨k', v'⟩ := e
    by_cases h : k' = n
    · subst h
      simp only [lookupA, if_pos rfl, List.map_cons, List.mem_cons]
      exact ⟨fun _ => Or.inl trivial, fun _ => rfl⟩
    · have h2 : ¬n = k' := fun hq => h hq.symm
      simp only [lookupA, if_neg h, List.map_cons, List.mem_cons]
      rw [ih]
      exact ⟨Or.inr, fun hq => hq.resolve_left h2⟩

lemma regSum_nil (ai ii oi : Nat) (n : Str) : regSum ai ii oi n [] = 0 := rfl

lemma regSum_cons (ai ii oi : Nat) (n : Str) (r : Row) (t : List Row) :
    regSum ai ii oi n (r :: t) =
      (if r[ai]? = some n then regNet ii oi r else 0) + regSum ai ii oi n t := by
  unfold regSum
  rw [List.filter_cons]
  by_cases h : r[ai]? = some n
  · rw [if_pos (by simp [h]), if_pos h, List.map_cons, List.sum_cons]
  · rw [if_neg (by simp [h]), if_neg h, zero_add]

lemma regSum_eq_zero {ai : Nat} (ii oi : Nat) {n : Str} {t : List Row}
    (h : t.any (fun r => decide (r[ai]? = some n)) = false) :
    regSum ai ii oi n t = 0 := by
  unfold regSum
  have : t.filter (fun r => decide (r[ai]? = some n)) = [] := by
    rw [List.filter_eq_nil_iff]
    intro r hr
    have := (List.any_eq_false.mp h) r hr
    simpa using this
  rw [this]
  rfl

/-- The register loop computes, for each nonblank name, the claim's
per-name sum on top of whatever the accumulator already held. -/
lemma regFold_lookup (ai ii oi : Nat) (data : List Row) :
    ∀ (acc : List (Str × Rat)) (n : Str), trimChars n ≠ [] →
      lookupA (data.foldl (regStep ai ii oi) acc) n =
        if data.any (fun r => decide (r[ai]? = some n))
        then some ((lookupA acc n).getD 0 + regSum ai ii oi n data)
        else lookupA acc n := by
  induction data with
  | nil => intro acc n hn; simp
  | cons r t ih =>
    intro acc n hn
    rw [List.foldl_cons]
    cases hr : r[ai]? with
    | none =>
      have hstep : regStep ai ii oi acc r = acc := by simp [regStep, hr]
      have hpred : ¬r[ai]? = some n := by rw [hr]; exact fun h => by cases h
      rw [hstep, ih acc n hn, List.any_cons, regSum_cons, if_neg hpred, zero_add]
      simp [hr]
    | some m =>
      by_cases hm : trimChars m = []
      · have hstep : regStep ai ii oi acc r = acc := by simp [regStep, hr, hm]
        have hpred : ¬r[ai]? = some n := by
          rw [hr]
          intro h
          exact hn (Option.some.inj h ▸ hm)
        have hmn' : ¬m = n := fun h => hn (h ▸ hm)
        rw [hstep, ih acc n hn, List.any_cons, regSum_cons, if_neg hpred, zero_add]
        simp [hr, hmn']
      · by_cases hmn : m = n
        · subst hmn
          have hstep : regStep ai ii oi acc r =
              upsert acc m ((lookupA acc m).getD 0 + regNet ii oi r) := by
            simp [regStep, hr, hm]
          have hpred : r[ai]? = some m := hr
          rw [hstep, ih _ m hn, List.any_cons, regSum_cons, if_pos hpred]
          rw [lookupA_upsert_self]
          have hany : (decide (r[ai]? = some m) || t.any fun r => decide (r[ai]? = some m)) = true := by
            simp [hr]
          rw [if_pos hany]
          by_cases ht : t.any (fun r => decide (r[ai]? = some m)) = true
          · rw [if_pos ht]
            simp only [Option.getD_some]
            rw [add_assoc]
          · rw [if_neg ht, regSum_eq_zero ii oi (Bool.not_eq_true _ ▸ ht), add_zero]
        · have hstep : regStep ai ii oi acc r =
              upsert acc m ((lookupA acc m).getD 0 + regNet ii oi r) := by
            simp [regStep, hr, hm]
          have hpred : ¬r[ai]? = some n := by
            rw [hr]
            intro h
            exact hmn (Option.some.inj h)
          rw [hstep, ih _ n hn, List.any_cons, regSum_cons, if_neg hpred, zero_add,
            lookupA_upsert_ne acc m _ n hmn]
          simp [hr, hmn]

lemma mem_keys_upsert {V : Type} (m : List (Str × V)) (k : Str) (v : V)
    (n : Str) (h : n ∈ (upsert m k v).map Prod.fst) :
    n ∈ m.map Prod.fst ∨ n = k := by
  rw [keys_upsert] at h
  by_cases hm : k ∈ m.map Prod.fst
  · rw [if_pos hm] at h
    exact Or.inl h
  · rw [if_neg hm] at h
    rcases List.mem_append.mp h with h1 | h1
    · exact Or.inl h1
    · exact Or.inr (by simpa using h1)

lemma regFold_keys_nonblank (ai ii oi : Nat) (data : List Row) :
    ∀ acc, (∀ k ∈ acc.map Prod.fst, trimChars k ≠ []) →
      ∀ k ∈ (data.foldl (regStep ai ii oi) acc).map Prod.fst, trimChars k ≠ [] := by
  induction data with
  | nil => intro acc h; exact h
  | cons r t ih =>
    intro acc h
    rw [List.foldl_cons]
    apply ih
    intro k hk
    unfold regStep at hk
    cases hr : r[ai]? with
    | none => rw [hr] at hk; exact h k hk
    | some m =>
      rw [hr] at hk
      dsimp only at hk
      by_cases hm : trimChars m = []
      · rw [if_pos hm] at hk; exact h k hk
      · rw [if_neg hm] at hk
        rcases mem_keys_upsert _ _ _ _ hk with h1 | h1
        · exact h k h1
        · rw [h1]; exact hm

lemma regFold_keys_nodup (ai ii oi : Nat) (data : List Row) :
    ∀ acc, (acc.map Prod.fst).Nodup →
      ((data.foldl (regStep ai ii oi) acc).map Prod.fst).Nodup := by
  induction data with
  | nil => intro acc h; exact h
  | cons r t ih =>
    intro acc h
    rw [List.foldl_cons]
    apply ih
    unfold regStep
    cases hr : r[ai]? with
    | none => exact h
    | some m =>
      dsimp only
      by_cases hm : trimChars m = []
      · rw [if_pos hm]; exact h
      · rw [if_neg hm]; exact nodup_keys_upsert _ _ _ h

lemma findAccount_map {V : Type} (mk : Str × V → YNABParsedAccount)
    (hname : ∀ e, (mk e).name = e.1) (m : List (Str × V)) (n : Str) :
    findAccount (m.map mk) n = (lookupA m n).map (fun v => mk (n, v)) := by
  induction m with
  | nil => rfl
  | cons e t ih =>
    obtain ⟨k, v⟩ := e
    rw [List.map_cons]
    unfold findAccount
    by_cases hk : k = n
    · subst hk
      rw [List.find?_cons_of_pos _ (by simp [hname]), lookupA, if_pos rfl]
      rfl
    · rw [List.find?_cons_of_neg _ (by simp [hname]; exact hk), lookupA, if_neg hk]
      exact ih

/-! ## Every field emitted by the tokenizer is trim-fixed -/

lemma head_dropWhile_neg {p : Char → Bool} {l : Str} {c : Char}
    (h : (l.dropWhile p).head? = some c) : p c = false := by
  induction l with
  | nil => cases h
  | cons a t ih =>
    rw [List.dropWhile_cons] at h
    by_cases ha : p a = true
    · rw [if_pos ha] at h
      exact ih h
    · rw [if_neg ha] at h
      cases h
      simpa using ha

lemma getLast_dropWhile_neg {p : Char → Bool} {l : Str} {c : Char}
    (h : (l.dropWhile p).getLast? = some c) :
    l.getLast? = some c := by
  obtain ⟨s, hs⟩ := (List.dropWhile_suffix p (l := l))
  cases hd : l.dropWhile p with
  | nil => rw [hd] at h; cases h
  | cons x r =>
    rw [hd] at h hs
    rw [← hs, List.getLast?_append_of_ne_nil _ (by simp)]
    exact h

lemma dropWhile_eq_self_of_head {p : Char → Bool} {l : Str}
    (h : ∀ c, l.head? = some c → p c = false) : l.dropWhile p = l := by
  cases l with
  | nil => rfl
  | cons a t => rw [List.dropWhile_cons, if_neg (by simp [h a rfl])]

/-- JS `trim` is idempotent. -/
lemma trimChars_idem (l : Str) : trimChars (trimChars l) = trimChars l := by
  set r1 := l.dropWhile jsWhitespace with hr1
  set y := r1.reverse.dropWhile jsWhitespace with hy
  have htrim : trimChars l = y.reverse := rfl
  have hyhead : ∀ c, y.head? = some c → jsWhitespace c = false :=
    fun c hc => head_dropWhile_neg hc
  have hylast : ∀ c, y.getLast? = some c → jsWhitespace c = false := by
    intro c hc
    have h1 : r1.reverse.getLast? = some c := getLast_dropWhile_neg hc
    have h2 : r1.head? = some c := by
      rw [List.getLast?_reverse] at h1
      exact h1
    exact head_dropWhile_neg (hr1 ▸ h2)
  rw [htrim]
  show trimChars y.reverse = y.reverse
  unfold trimChars
  have e1 : List.dropWhile jsWhitespace y.reverse = y.reverse :=
    @dropWhile_eq_self_of_head jsWhitespace y.reverse
      (fun c hc => hylast c (by rwa [List.head?_reverse] at hc))
  have e2 : List.dropWhile jsWhitespace y = y :=
    @dropWhile_eq_self_of_head jsWhitespace y hyhead
  rw [e1, List.reverse_reverse, e2]

/-- All fields already collected plus all fields of the output of the
tokenizer loop are trim-fixed (strong induction on the remaining input
length, the loop consuming one or two characters per step). -/
lemma parseCSVAux_fields_trimmed :
    ∀ (n : Nat) (inQ : Bool) (field : Str) (line : List Str)
      (lines : List (List Str)) (text : List Char), text.length ≤ n →
      (∀ f ∈ line, trimChars f = f) →
      (∀ g ∈ lines, ∀ f ∈ g, trimChars f = f) →
      ∀ g ∈ parseCSVAux inQ field line lines text, ∀ f ∈ g, trimChars f = f := by
  have hend : ∀ (fld : Str) (ln : List Str) (ls : List (List Str)),
      (∀ f ∈ ln, trimChars f = f) → (∀ g ∈ ls, ∀ f ∈ g, trimChars f = f) →
      ∀ g ∈ endLine fld ln ls, ∀ f ∈ g, trimChars f = f := by
    intro fld ln ls hln hls g hg f hf
    unfold endLine at hg
    by_cases hc : ((ln ++ [trimChars fld]).any fun f => f.length > 0) = true
    · rw [if_pos hc] at hg
      rcases List.mem_append.mp hg with h1 | h1
      · exact hls g h1 f hf
      · have hge : g = ln ++ [trimChars fld] := by simpa using h1
        subst hge
        rcases List.mem_append.mp hf with h2 | h2
        · exact hln f h2
        · have he : f = trimChars fld := by simpa using h2
          rw [he]
          exact trimChars_idem fld
    · rw [if_neg hc] at hg
      exact hls g hg f hf
  intro n
  induction n with
  | zero =>
    intro inQ field line lines text hlen hline hlines
    have : text = [] := List.eq_nil_of_length_eq_zero (Nat.le_zero.mp hlen)
    subst this
    exact hend field line lines hline hlines
  | succ n ih =>
    intro inQ field line lines text hlen hline hlines
    have hline2 : ∀ f ∈ line ++ [trimChars field], trimChars f = f := by
      intro f hf
      rcases List.mem_append.mp hf with h1 | h1
      · exact hline f h1
      · have he : f = trimChars field := by simpa using h1
        rw [he]
        exact trimChars_idem field
    have hlines2 := hend field line lines hline hlines
    have hnil : ∀ f ∈ ([] : List Str), trimChars f = f :=
      fun f hf => absurd hf (List.not_mem_nil f)
    match text, hlen with
    | [], _ => exact hend field line lines hline hlines
    | [c], hlen =>
      rw [parseCSVAux]
      repeat' split
      all_goals
        first
          | exact ih _ _ _ _ _ (by simp) hline hlines
          | exact ih _ _ _ _ _ (by simp) hline2 hlines
          | exact ih _ _ _ _ _ (by simp) hnil hlines2
    | c :: c2 :: rest, hlen =>
      have hlen1 : (c2 :: rest).length ≤ n := by
        simp only [List.length_cons] at hlen ⊢
        omega
      have hlen2 : rest.length ≤ n := by
        simp only [List.length_cons] at hlen
        omega
      rw [parseCSVAux]
      repeat' split
      all_goals
        first
          | exact ih _ _ _ _ _ hlen1 hline hlines
          | exact ih _ _ _ _ _ hlen2 hline hlines
          | exact ih _ _ _ _ _ hlen1 hline2 hlines
          | exact ih _ _ _ _ _ hlen2 hline2 hlines
          | exact ih _ _ _ _ _ hlen1 hnil hlines2
          | exact ih _ _ _ _ _ hlen2 hnil hlines2

/-- Every field of every row of a tokenized document is trim-fixed. -/
lemma parseCSV_fields_trimmed (text : Str) :
    ∀ g ∈ parseCSV text, ∀ f ∈ g, trimChars f = f :=
  parseCSVAux_fields_trimmed text.length false [] [] [] text (Nat.le_refl _)
    (fun f hf => absurd hf (List.not_mem_nil f))
    (fun g hg => absurd hg (List.not_mem_nil g))

lemma parseRegister_cons (header : Row) (data : List Row) (ai ii oi : Nat)
    (ha : accountIdxOf header = some ai) (hi : inflowIdxOf header = some ii)
    (ho : outflowIdxOf header = some oi) :
    parseRegister (header :: data) = .ok (registerCore data ai ii oi) := by
  cases data with
  | nil => rfl
  | cons r t =>
    unfold parseRegister
    dsimp only
    rw [ha, hi, ho]

/-- C2: for every tokenized register document whose header resolves the
account/inflow/outflow columns, `parseRegister` succeeds with one account
per distinct nonblank account name (exact equality of the trimmed cell
text — parseCSV emits only trim-fixed fields, so no further normalization
happens), and the account's balance is the sum over all data rows bearing
that name of `inflow − outflow`. -/
theorem C2_register_balances :
    ∀ (text : Str) (header : Row) (data : List Row) (ai ii oi : Nat),
      parseCSV text = header :: data →
      accountIdxOf header = some ai →
      inflowIdxOf header = some ii →
      outflowIdxOf header = some oi →
      ∃ accts, parseRegister (header :: data) = .ok accts ∧
        (accts.map (fun a => a.name)).Nodup ∧
        (∀ a ∈ accts, trimChars a.name ≠ []) ∧
        (∀ row ∈ header :: data, ∀ c ∈ row, trimChars c = c) ∧
        (∀ n, trimChars n ≠ [] →
          findAccount accts n =
            if data.any (fun r => decide (r[ai]? = some n))
            then some (mkRegisterAccount (n, regSum ai ii oi n data))
            else none) := by
  intro text header data ai ii oi htok ha hi ho
  refine ⟨registerCore data ai ii oi, parseRegister_cons header data ai ii oi ha hi ho,
    ?_, ?_, ?_, ?_⟩
  · unfold registerCore
    rw [List.map_map]
    have he : ((fun a => a.name) ∘ mkRegisterAccount) = Prod.fst := by
      funext e
      rfl
    rw [he]
    exact regFold_keys_nodup ai ii oi data [] (by simp)
  · intro a ha2
    unfold registerCore at ha2
    rcases List.mem_map.mp ha2 with ⟨e, he, hmk⟩
    have : a.name = e.1 := by rw [← hmk]; rfl
    rw [this]
    exact regFold_keys_nonblank ai ii oi data [] (by simp) e.1
      (List.mem_map.mpr ⟨e, he, rfl⟩)
  · rw [← htok]
    exact parseCSV_fields_trimmed text
  · intro n hn
    unfold registerCore
    rw [findAccount_map mkRegisterAccount (fun e => rfl),
      regFold_lookup ai ii oi data [] n hn]
    by_cases hany : data.any (fun r => decide (r[ai]? = some n)) = true
    · rw [if_pos hany, if_pos hany]
      simp only [lookupA, Option.getD_none, zero_add]
      rfl
    · rw [if_neg hany, if_neg hany]
      rfl

/-- Concrete instantiation of `C2_register_balances`: the spec's example —
rows (100, 0) and (0, 40) for "Checking" aggregate to balance 60. -/
theorem C2_register_balances_witness :
    ∃ accts,
      parseRegister (parseCSV
        (strOf "Account,Inflow,Outflow\nChecking,100,0\nChecking,0,40")) =
        .ok accts ∧
      findAccount accts (strOf "Checking") =
        some { name := strOf "Checking", balance := 60, ynabType := none,
               suggestedCategory := .currentAsset,
               suggestedAccessType := .liquid } := by
  obtain ⟨accts, hok, _, _, _, hfind⟩ :=
    C2_register_balances
      (strOf "Account,Inflow,Outflow\nChecking,100,0\nChecking,0,40")
      [strOf "Account", strOf "Inflow", strOf "Outflow"]
      [[strOf "Checking", strOf "100", strOf "0"],
       [strOf "Checking", strOf "0", strOf "40"]]
      0 1 2 (by decide) (by decide) (by decide) (by decide)
  refine ⟨accts, ?_, ?_⟩
  · have htok2 : parseCSV
        (strOf "Account,Inflow,Outflow\nChecking,100,0\nChecking,0,40") =
        [[strOf "Account", strOf "Inflow", strOf "Outflow"],
         [strOf "Checking", strOf "100", strOf "0"],
         [strOf "Checking", strOf "0", strOf "40"]] := by decide
    rw [htok2]
    exact hok
  rw [hfind (strOf "Checking") (by decide)]
  rw [if_pos (by decide)]
  have : mkRegisterAccount (strOf "Checking",
      regSum 0 1 2 (strOf "Checking")
        [[strOf "Checking", strOf "100", strOf "0"],
         [strOf "Checking", strOf "0", strOf "40"]]) =
      { name := strOf "Checking", balance := 60, ynabType := none,
        suggestedCategory := .currentAsset, suggestedAccessType := .liquid } := by
    decide
  rw [this]

lemma strLt_nil (b : Str) : strLt b [] = false := by
  cases b <;> rfl

lemma monthMaxStep_some {mi : Nat} {r : Row} {m : Str} (b : Str)
    (hc : r[mi]? = some m) :
    monthMaxStep (some mi) b r = if strLt b m then m else b := by
  unfold monthMaxStep
  rw [Option.some_bind, hc]
  dsimp only
  by_cases hm : m = []
  · subst hm
    rw [if_neg (by simp), if_neg (by simp [strLt_nil])]
  · by_cases hlt : strLt b m = true
    · rw [if_pos ⟨hm, hlt⟩, if_pos hlt]
    · rw [if_neg (fun h => hlt h.2), if_neg hlt]

lemma monthMaxStep_none_cell {mi : Nat} {r : Row} (b : Str)
    (hc : r[mi]? = none) : monthMaxStep (some mi) b r = b := by
  unfold monthMaxStep
  rw [Option.some_bind, hc]

/-- The source's running-maximum loop computes the claim's lexicographic
maximum when a month column exists. -/
lemma mostRecentMonth_some (mi : Nat) (data : List Row) :
    mostRecentMonth (some mi) data = specMaxMonth mi data := by
  unfold mostRecentMonth specMaxMonth
  suffices h : ∀ b, data.foldl (monthMaxStep (some mi)) b =
      (data.filterMap (fun r => r[mi]?)).foldl
        (fun b m => if strLt b m then m else b) b from h []
  induction data with
  | nil => intro b; rfl
  | cons r t ih =>
    intro b
    rw [List.foldl_cons, List.filterMap_cons]
    cases hc : r[mi]? with
    | none => rw [monthMaxStep_none_cell b hc]; exact ih b
    | some m =>
      rw [monthMaxStep_some b hc, List.foldl_cons]
      exact ih _

/-- Without a month column the running maximum stays the empty string. -/
lemma mostRecentMonth_none (data : List Row) :
    mostRecentMonth none data = [] := by
  unfold mostRecentMonth
  suffices h : ∀ b, data.foldl (monthMaxStep none) b = b from h []
  induction data with
  | nil => intro b; rfl
  | cons r t ih =>
    intro b
    rw [List.foldl_cons]
    have : monthMaxStep none b r = b := rfl
    rw [this]
    exact ih b

/-- The net-worth loop records, for each nonblank name, exactly the value
of the last selected row bearing that name (overwriting, not summing). -/
lemma nwFold_lookup (ai bi : Nat) (mi ti : Option Nat) (mr : Str)
    (data : List Row) :
    ∀ acc n, trimChars n ≠ [] →
      lookupA (data.foldl (nwStep ai bi mi ti mr) acc) n =
        match (data.filter (nwHits ai mi mr n)).getLast? with
        | some r => some (nwValueOf bi ti r)
        | none => lookupA acc n := by
  induction data with
  | nil => intro acc n hn; rfl
  | cons r t ih =>
    intro acc n hn
    rw [List.foldl_cons, List.filter_cons]
    by_cases hmonth : nwMonthOf mi mr r = some mr
    · cases hr : r[ai]? with
      | none =>
        have hstep : nwStep ai bi mi ti mr acc r = acc := by
          unfold nwStep
          rw [if_neg (by simp [hmonth]), hr]
        have hhit : nwHits ai mi mr n r = false := by simp [nwHits, hr]
        rw [hstep, if_neg (by simp [hhit])]
        exact ih acc n hn
      | some m =>
        by_cases hb : trimChars m = []
        · have hstep : nwStep ai bi mi ti mr acc r = acc := by
            unfold nwStep
            rw [if_neg (by simp [hmonth]), hr]
            dsimp only
            rw [if_pos hb]
          have hhit : nwHits ai mi mr n r = false := by
            simp only [nwHits, hr, Bool.and_eq_false_iff]
            right
            simp only [decide_eq_false_iff_not]
            intro h
            exact hn (Option.some.inj h ▸ hb)
          rw [hstep, if_neg (by simp [hhit])]
          exact ih acc n hn
        · by_cases hmn : m = n
          · subst hmn
            have hstep : nwStep ai bi mi ti mr acc r =
                upsert acc m (nwValueOf bi ti r) := by
              unfold nwStep
              rw [if_neg (by simp [hmonth]), hr]
              dsimp only
              rw [if_neg hb]
            have hhit : nwHits ai mi mr m r = true := by
              simp [nwHits, hr, hmonth]
            rw [hstep, if_pos (by simp [hhit]), ih _ m hn]
            cases hft : t.filter (nwHits ai mi mr m) with
            | nil =>
              rw [List.getLast?_singleton]
              exact lookupA_upsert_self acc m _
            | cons x xs =>
              rw [List.getLast?_cons_cons]
              cases hgl : (x :: xs).getLast? with
              | none => simp at hgl
              | some r' => rfl
          · have hstep : nwStep ai bi mi ti mr acc r =
                upsert acc m (nwValueOf bi ti r) := by
              unfold nwStep
              rw [if_neg (by simp [hmonth]), hr]
              dsimp only
              rw [if_neg hb]
            have hhit : nwHits ai mi mr n r = false := by
              simp only [nwHits, hr, Bool.and_eq_false_iff]
              right
              simp only [decide_eq_false_iff_not]
              intro h
              exact hmn (Option.some.inj h)
            rw [hstep, if_neg (by simp [hhit]), ih _ n hn,
              lookupA_upsert_ne acc m _ n hmn]
    · have hstep : nwStep ai bi mi ti mr acc r = acc := by
        unfold nwStep
        rw [if_pos (by simp [hmonth])]
      have hhit : nwHits ai mi mr n r = false := by simp [nwHits, hmonth]
      rw [hstep, if_neg (by simp [hhit])]
      exact ih acc n hn

lemma nwFold_keys_nonblank (ai bi : Nat) (mi ti : Option Nat) (mr : Str)
    (data : List Row) :
    ∀ acc, (∀ k ∈ acc.map Prod.fst, trimChars k ≠ []) →
      ∀ k ∈ (data.foldl (nwStep ai bi mi ti mr) acc).map Prod.fst,
        trimChars k ≠ [] := by
  induction data with
  | nil => intro acc h; exact h
  | cons r t ih =>
    intro acc h
    rw [List.foldl_cons]
    apply ih
    intro k hk
    unfold nwStep at hk
    by_cases hmonth : nwMonthOf mi mr r ≠ some mr
    · rw [if_pos hmonth] at hk
      exact h k hk
    · rw [if_neg hmonth] at hk
      cases hr : r[ai]? with
      | none => rw [hr] at hk; exact h k hk
      | some m =>
        rw [hr] at hk
        dsimp only at hk
        by_cases hm : trimChars m = []
        · rw [if_pos hm] at hk; exact h k hk
        · rw [if_neg hm] at hk
          rcases mem_keys_upsert _ _ _ _ hk with h1 | h1
          · exact h k h1
          · rw [h1]; exact hm

lemma nwFold_keys_nodup (ai bi : Nat) (mi ti : Option Nat) (mr : Str)
    (data : List Row) :
    ∀ acc, (acc.map Prod.fst).Nodup →
      ((data.foldl (nwStep ai bi mi ti mr) acc).map Prod.fst).Nodup := by
  induction data with
  | nil => intro acc h; exact h
  | cons r t ih =>
    intro acc h
    rw [List.foldl_cons]
    apply ih
    unfold nwStep
    by_cases hmonth : nwMonthOf mi mr r ≠ some mr
    · rw [if_pos hmonth]; exact h
    · rw [if_neg hmonth]
      cases hr : r[ai]? with
      | none => exact h
      | some m =>
        dsimp only
        by_cases hm : trimChars m = []
        · rw [if_pos hm]; exact h
        · rw [if_neg hm]; exact nodup_keys_upsert _ _ _ h

lemma parseNetWorthReport_cons (header : Row) (data : List Row) (ai bi : Nat)
    (ha : accountIdxOf header = some ai) (hb : balanceIdxOf header = some bi) :
    parseNetWorthReport (header :: data) =
      .ok (netWorthCore data ai bi (monthIdxOf header) (typeIdxOf header)) := by
  cases data with
  | nil => rfl
  | cons r t =>
    unfold parseNetWorthReport
    dsimp only
    rw [ha, hb]

/-- The loop's row filter coincides with the claim's two-pass selection:
month-selected rows (all rows when no month column) restricted to those
bearing the account name. -/
lemma filter_nwHits_eq_spec (ai : Nat) (mi : Option Nat) (data : List Row)
    (n : Str) :
    data.filter (nwHits ai mi (mostRecentMonth mi data) n) =
      (specSelected mi data).filter (fun r => decide (r[ai]? = some n)) := by
  cases mi with
  | none =>
    unfold specSelected
    congr 1
    funext r
    simp [nwHits, nwMonthOf]
  | some k =>
    unfold specSelected
    rw [mostRecentMonth_some, List.filter_filter]
    congr 1
    funext r
    simp [nwHits, nwMonthOf, Bool.and_comm]

/-- C1: for every tokenized net-worth document whose header resolves the
account and balance columns, `parseNetWorthReport` succeeds with one
account per distinct nonblank account name, and for each name the entry is
exactly the *last* row for that name among the selected rows — the data
rows whose month cell equals the lexicographically maximal month value
when a month column exists, and all data rows otherwise — that row
determining both balance and source type (overwriting earlier rows, not
summing). -/
theorem C1_networth_aggregation :
    ∀ (text : Str) (header : Row) (data : List Row) (ai bi : Nat),
      parseCSV text = header :: data →
      accountIdxOf header = some ai →
      balanceIdxOf header = some bi →
      ∃ accts, parseNetWorthReport (header :: data) = .ok accts ∧
        (accts.map (fun a => a.name)).Nodup ∧
        (∀ a ∈ accts, trimChars a.name ≠ []) ∧
        (∀ n, trimChars n ≠ [] →
          findAccount accts n =
            (((specSelected (monthIdxOf header) data).filter
                (fun r => decide (r[ai]? = some n))).getLast?).map
              (fun r => mkNetWorthAccount (n, nwValueOf bi (typeIdxOf header) r))) := by
  intro text header data ai bi htok ha hb
  refine ⟨netWorthCore data ai bi (monthIdxOf header) (typeIdxOf header),
    parseNetWorthReport_cons header data ai bi ha hb, ?_, ?_, ?_⟩
  · unfold netWorthCore
    rw [List.map_map]
    have he : ((fun a => a.name) ∘ mkNetWorthAccount) = Prod.fst := by
      funext e
      rfl
    rw [he]
    exact nwFold_keys_nodup ai bi _ _ _ data [] (by simp)
  · intro a ha2
    unfold netWorthCore at ha2
    rcases List.mem_map.mp ha2 with ⟨e, he, hmk⟩
    have hne : a.name = e.1 := by rw [← hmk]; rfl
    rw [hne]
    exact nwFold_keys_nonblank ai bi _ _ _ data [] (by simp) e.1
      (List.mem_map.mpr ⟨e, he, rfl⟩)
  · intro n hn
    unfold netWorthCore
    rw [findAccount_map mkNetWorthAccount (fun e => rfl),
      nwFold_lookup ai bi (monthIdxOf header) (typeIdxOf header) _ data [] n hn]
    simp only [filter_nwHits_eq_spec]
    cases hgl : ((specSelected (monthIdxOf header) data).filter
        (fun r => decide (r[ai]? = some n))).getLast? with
    | none => rfl
    | some r => rfl

/-- Concrete instantiation of `C1_networth_aggregation`: months "2024-01"
and "2024-02" for one account keep only the "2024-02" rows, and among the
two "2024-02" duplicate rows the last one (balance 75) wins. -/
theorem C1_networth_aggregation_witness :
    ∃ accts,
      parseNetWorthReport (parseCSV (strOf
        "Month,Account,Account Type,Balance\n2024-01,Sav,Asset,50\n2024-02,Sav,Asset,70\n2024-02,Sav,Asset,75")) =
        .ok accts ∧
      findAccount accts (strOf "Sav") =
        some { name := strOf "Sav", balance := 75,
               ynabType := some (strOf "Asset"),
               suggestedCategory := .currentAsset,
               suggestedAccessType := .liquid } := by
  obtain ⟨accts, hok, _, _, hfind⟩ :=
    C1_networth_aggregation
      (strOf "Month,Account,Account Type,Balance\n2024-01,Sav,Asset,50\n2024-02,Sav,Asset,70\n2024-02,Sav,Asset,75")
      [strOf "Month", strOf "Account", strOf "Account Type", strOf "Balance"]
      [[strOf "2024-01", strOf "Sav", strOf "Asset", strOf "50"],
       [strOf "2024-02", strOf "Sav", strOf "Asset", strOf "70"],
       [strOf "2024-02", strOf "Sav", strOf "Asset", strOf "75"]]
      1 3 (by decide) (by decide) (by decide)
  refine ⟨accts, ?_, ?_⟩
  · have htok2 : parseCSV (strOf
        "Month,Account,Account Type,Balance\n2024-01,Sav,Asset,50\n2024-02,Sav,Asset,70\n2024-02,Sav,Asset,75") =
        [[strOf "Month", strOf "Account", strOf "Account Type", strOf "Balance"],
         [strOf "2024-01", strOf "Sav", strOf "Asset", strOf "50"],
         [strOf "2024-02", strOf "Sav", strOf "Asset", strOf "70"],
         [strOf "2024-02", strOf "Sav", strOf "Asset", strOf "75"]] := by decide
    rw [htok2]
    exact hok
  · rw [hfind (strOf "Sav") (by decide)]
    decide

/-! ## C10: short or blank rows never fail -/

lemma nwFold_keys_from_rows (ai bi : Nat) (mi ti : Option Nat) (mr : Str)
    (data : List Row) :
    ∀ acc k, k ∈ (data.foldl (nwStep ai bi mi ti mr) acc).map Prod.fst →
      k ∈ acc.map Prod.fst ∨ ∃ r ∈ data, r[ai]? = some k := by
  induction data with
  | nil => intro acc k hk; exact Or.inl hk
  | cons r t ih =>
    intro acc k hk
    rw [List.foldl_cons] at hk
    rcases ih _ k hk with h1 | ⟨r', hr', he⟩
    · unfold nwStep at h1
      by_cases hmonth : nwMonthOf mi mr r ≠ some mr
      · rw [if_pos hmonth] at h1
        exact Or.inl h1
      · rw [if_neg hmonth] at h1
        cases hr : r[ai]? with
        | none => rw [hr] at h1; exact Or.inl h1
        | some m =>
          rw [hr] at h1
          dsimp only at h1
          by_cases hm : trimChars m = []
          · rw [if_pos hm] at h1; exact Or.inl h1
          · rw [if_neg hm] at h1
            rcases mem_keys_upsert _ _ _ _ h1 with h2 | h2
            · exact Or.inl h2
            · exact Or.inr ⟨r, List.mem_cons_self r t, h2 ▸ hr⟩
    · exact Or.inr ⟨r', List.mem_cons_of_mem r hr', he⟩

lemma regFold_keys_from_rows (ai ii oi : Nat) (data : List Row) :
    ∀ acc k, k ∈ (data.foldl (regStep ai ii oi) acc).map Prod.fst →
      k ∈ acc.map Prod.fst ∨ ∃ r ∈ data, r[ai]? = some k := by
  induction data with
  | nil => intro acc k hk; exact Or.inl hk
  | cons r t ih =>
    intro acc k hk
    rw [List.foldl_cons] at hk
    rcases ih _ k hk with h1 | ⟨r', hr', he⟩
    · unfold regStep at h1
      cases hr : r[ai]? with
      | none => rw [hr] at h1; exact Or.inl h1
      | some m =>
        rw [hr] at h1
        dsimp only at h1
        by_cases hm : trimChars m = []
        · rw [if_pos hm] at h1; exact Or.inl h1
        · rw [if_neg hm] at h1
          rcases mem_keys_upsert _ _ _ _ h1 with h2 | h2
          · exact Or.inl h2
          · exact Or.inr ⟨r, List.mem_cons_self r t, h2 ▸ hr⟩
    · exact Or.inr ⟨r', List.mem_cons_of_mem r hr', he⟩

/-- C10: the aggregators can fail only on a header with missing required
columns (never because of the data rows — short rows are harmless): the
error characterizations below mention the header and the existence of a
data row only; a missing or blank account cell just skips the row, so
every produced account bears a nonblank name taken from some row's
account cell; and a missing, empty or unconvertible balance/inflow/outflow
cell is read as amount 0 because `parseCurrencyValue` is total with
default 0. -/
theorem C10_short_rows_never_fail :
    (∀ (header : Row) (data : List Row) (e : YNABError),
      parseNetWorthReport (header :: data) = .error e ↔
        e = .missingColumnsNetworth ∧ data ≠ [] ∧
          (accountIdxOf header = none ∨ balanceIdxOf header = none)) ∧
    (∀ (header : Row) (data : List Row) (e : YNABError),
      parseRegister (header :: data) = .error e ↔
        e = .missingColumnsRegister ∧ data ≠ [] ∧
          (accountIdxOf header = none ∨ inflowIdxOf header = none ∨
            outflowIdxOf header = none)) ∧
    (∀ (header : Row) (data : List Row) (accts : List YNABParsedAccount) (ai : Nat),
      accountIdxOf header = some ai →
      parseNetWorthReport (header :: data) = .ok accts →
      ∀ a ∈ accts, trimChars a.name ≠ [] ∧ ∃ r ∈ data, r[ai]? = some a.name) ∧
    (∀ (header : Row) (data : List Row) (accts : List YNABParsedAccount) (ai : Nat),
      accountIdxOf header = some ai →
      parseRegister (header :: data) = .ok accts →
      ∀ a ∈ accts, trimChars a.name ≠ [] ∧ ∃ r ∈ data, r[ai]? = some a.name) ∧
    parseCurrencyValueCell none = 0 ∧
    parseCurrencyValue [] = 0 ∧
    (∀ s, jsParseFloat (normalizeSeparators (cleanCurrency s)) = none →
      parseCurrencyValue s = 0) := by
  refine ⟨?_, ?_, ?_, ?_, rfl, rfl, ?_⟩
  · intro header data e
    cases data with
    | nil => simp [parseNetWorthReport]
    | cons r t =>
      unfold parseNetWorthReport
      dsimp only
      cases ha : accountIdxOf header with
      | none => simp [ha, eq_comm]
      | some ai =>
        cases hb : balanceIdxOf header with
        | none => simp [ha, hb, eq_comm]
        | some bi => simp [ha, hb]
  · intro header data e
    cases data with
    | nil => simp [parseRegister]
    | cons r t =>
      unfold parseRegister
      dsimp only
      cases ha : accountIdxOf header with
      | none => simp [ha, eq_comm]
      | some ai =>
        cases hi : inflowIdxOf header with
        | none => simp [ha, hi, eq_comm]
        | some ii =>
          cases ho : outflowIdxOf header with
          | none => simp [ha, hi, ho, eq_comm]
          | some oi => simp [ha, hi, ho]
  · intro header data accts ai ha hok a hmem
    cases data with
    | nil =>
      have : accts = [] := by
        have h0 : parseNetWorthReport [header] =
            .ok ([] : List YNABParsedAccount) := rfl
        rw [h0] at hok
        exact (Except.ok.inj hok).symm
      rw [this] at hmem
      cases hmem
    | cons r t =>
      have heq : ∃ bi, accts = netWorthCore (r :: t) ai bi (monthIdxOf header)
          (typeIdxOf header) := by
        cases hb : balanceIdxOf header with
        | none =>
          rw [(by
            unfold parseNetWorthReport
            dsimp only
            rw [ha, hb] :
            parseNetWorthReport (header :: r :: t) =
              .error .missingColumnsNetworth)] at hok
          cases hok
        | some bi =>
          rw [parseNetWorthReport_cons header (r :: t) ai bi ha hb] at hok
          exact ⟨bi, (Except.ok.inj hok).symm⟩
      obtain ⟨bi, heq⟩ := heq
      subst heq
      unfold netWorthCore at hmem
      rcases List.mem_map.mp hmem with ⟨e, he, hmk⟩
      have hname : a.name = e.1 := by rw [← hmk]; rfl
      have hkey : e.1 ∈ (((r :: t).foldl
          (nwStep ai bi (monthIdxOf header) (typeIdxOf header)
            (mostRecentMonth (monthIdxOf header) (r :: t))) []).map Prod.fst) :=
        List.mem_map.mpr ⟨e, he, rfl⟩
      constructor
      · rw [hname]
        exact nwFold_keys_nonblank _ _ _ _ _ (r :: t) [] (by simp) e.1 hkey
      · rw [hname]
        rcases nwFold_keys_from_rows _ _ _ _ _ (r :: t) [] e.1 hkey with h1 | h1
        · simp at h1
        · exact h1
  · intro header data accts ai ha hok a hmem
    cases data with
    | nil =>
      have : accts = [] := by
        have h0 : parseRegister [header] = .ok ([] : List YNABParsedAccount) := rfl
        rw [h0] at hok
        exact (Except.ok.inj hok).symm
      rw [this] at hmem
      cases hmem
    | cons r t =>
      have heq : ∃ ii oi, accts = registerCore (r :: t) ai ii oi := by
        cases hi : inflowIdxOf header with
        | none =>
          rw [(by
            unfold parseRegister
            dsimp only
            rw [ha, hi] :
            parseRegister (header :: r :: t) = .error .missingColumnsRegister)] at hok
          cases hok
        | some ii =>
          cases ho : outflowIdxOf header with
          | none =>
            rw [(by
              unfold parseRegister
              dsimp only
              rw [ha, hi, ho] :
              parseRegister (header :: r :: t) = .error .missingColumnsRegister)] at hok
            cases hok
          | some oi =>
            rw [parseRegister_cons header (r :: t) ai ii oi ha hi ho] at hok
            exact ⟨ii, oi, (Except.ok.inj hok).symm⟩
      obtain ⟨ii, oi, heq⟩ := heq
      subst heq
      unfold registerCore at hmem
      rcases List.mem_map.mp hmem with ⟨e, he, hmk⟩
      have hname : a.name = e.1 := by rw [← hmk]; rfl
      have hkey : e.1 ∈ (((r :: t).foldl (regStep ai ii oi) []).map Prod.fst) :=
        List.mem_map.mpr ⟨e, he, rfl⟩
      constructor
      · rw [hname]
        exact regFold_keys_nonblank ai ii oi (r :: t) [] (by simp) e.1 hkey
      · rw [hname]
        rcases regFold_keys_from_rows ai ii oi (r :: t) [] e.1 hkey with h1 | h1
        · simp at h1
        · exact h1
  · intro s hnone
    unfold parseCurrencyValue
    by_cases hblank : s = [] ∨ trimChars s = []
    · rw [if_pos hblank]
    · rw [if_neg hblank]
      unfold jsFloatOrZero
      rw [hnone]
      rfl

/-- Concrete instantiation of `C10_short_rows_never_fail`: a net-worth
document whose only data row is shorter than the header (missing type and
balance cells) parses successfully, with balance 0 for the missing cell;
and unconvertible text maps to 0. -/
theorem C10_short_rows_never_fail_witness :
    (∀ e, ¬parseNetWorthReport
      [[strOf "Month", strOf "Account", strOf "Account Type", strOf "Balance"],
       [strOf "2024-01", strOf "Checking"]] = .error e) ∧
    parseCurrencyValue (strOf "abc") = 0 := by
  constructor
  · intro e he
    have h := (C10_short_rows_never_fail.1
      [strOf "Month", strOf "Account", strOf "Account Type", strOf "Balance"]
      [[strOf "2024-01", strOf "Checking"]] e).mp he
    have h2 := h.2.2
    revert h2
    decide
  · exact C10_short_rows_never_fail.2.2.2.2.2.2 (strOf "abc") (by decide)

lemma parseNetWorthReport_missing (header r1 : Row) (t : List Row)
    (h : accountIdxOf header = none ∨ balanceIdxOf header = none) :
    parseNetWorthReport (header :: r1 :: t) = .error .missingColumnsNetworth := by
  unfold parseNetWorthReport
  dsimp only
  cases ha : accountIdxOf header with
  | none => rfl
  | some ai =>
    rcases h with h | h
    · rw [ha] at h; cases h
    · rw [h]

lemma parseRegister_missing (header r1 : Row) (t : List Row)
    (h : accountIdxOf header = none ∨ inflowIdxOf header = none ∨
      outflowIdxOf header = none) :
    parseRegister (header :: r1 :: t) = .error .missingColumnsRegister := by
  unfold parseRegister
  dsimp only
  cases ha : accountIdxOf header with
  | none => rfl
  | some ai =>
    cases hi : inflowIdxOf header with
    | none => rfl
    | some ii =>
      cases ho : outflowIdxOf header with
      | none => rfl
      | some oi =>
        rcases h with h | h | h
        · rw [ha] at h; cases h
        · rw [hi] at h; cases h
        · rw [ho] at h; cases h

/-- C7: `parseYNABCSV` implements exactly the claim's error policy — it
fails iff one of the four conditions of `specOutcome` holds, checked in
that order, and otherwise returns the detected format with the non-empty
aggregated account list; in particular unparseable numeric fields,
malformed quoting and blank lines never produce a failure, since none of
the four conditions mentions them. -/
theorem C7_error_policy (text : Str) : parseYNABCSV text = specOutcome text := by
  unfold parseYNABCSV specOutcome
  cases hrows : parseCSV text with
  | nil => rfl
  | cons r0 rest =>
    dsimp only
    cases hdet : detectYNABFormat r0 with
    | none => rfl
    | some fmt =>
      dsimp only
      cases fmt with
      | networth =>
        cases rest with
        | nil =>
          rw [if_neg (by simp)]
          rfl
        | cons r1 t =>
          cases ha : accountIdxOf r0 with
          | none =>
            rw [parseNetWorthReport_missing r0 r1 t (Or.inl ha),
              if_pos ⟨by simp, by simp [requiredColsMissing, ha]⟩]
            rfl
          | some ai =>
            cases hb : balanceIdxOf r0 with
            | none =>
              rw [parseNetWorthReport_missing r0 r1 t (Or.inr hb),
                if_pos ⟨by simp, by simp [requiredColsMissing, hb]⟩]
              rfl
            | some bi =>
              have hagg : aggregateOk .networth (r0 :: r1 :: t) =
                  netWorthCore (r1 :: t) ai bi (monthIdxOf r0) (typeIdxOf r0) := by
                unfold aggregateOk
                rw [parseNetWorthReport_cons r0 (r1 :: t) ai bi ha hb]
              rw [parseNetWorthReport_cons r0 (r1 :: t) ai bi ha hb,
                if_neg (by simp [requiredColsMissing, ha, hb]), hagg]
      | register =>
        cases rest with
        | nil =>
          rw [if_neg (by simp)]
          rfl
        | cons r1 t =>
          cases ha : accountIdxOf r0 with
          | none =>
            rw [parseRegister_missing r0 r1 t (Or.inl ha),
              if_pos ⟨by simp, by simp [requiredColsMissing, ha]⟩]
            rfl
          | some ai =>
            cases hi : inflowIdxOf r0 with
            | none =>
              rw [parseRegister_missing r0 r1 t (Or.inr (Or.inl hi)),
                if_pos ⟨by simp, by simp [requiredColsMissing, hi]⟩]
              rfl
            | some ii =>
              cases ho : outflowIdxOf r0 with
              | none =>
                rw [parseRegister_missing r0 r1 t (Or.inr (Or.inr ho)),
                  if_pos ⟨by simp, by simp [requiredColsMissing, ho]⟩]
                rfl
              | some oi =>
                have hagg : aggregateOk .register (r0 :: r1 :: t) =
                    registerCore (r1 :: t) ai ii oi := by
                  unfold aggregateOk
                  rw [parseRegister_cons r0 (r1 :: t) ai ii oi ha hi ho]
                rw [parseRegister_cons r0 (r1 :: t) ai ii oi ha hi ho,
                  if_neg (by simp [requiredColsMissing, ha, hi, ho]), hagg]
